import Mathlib

/-!
Verification of the utree traversal/filter/sort/aggregate engine.

The Lean definitions below are a shallow embedding of the Python sources:
  * `src/tree/gnu/strverscmp.py`  — `strverscmp`
  * `src/tree/tree1.py`           — node builders, `filter_item`, `sort_tree`,
                                    `fill_stat`, `tree_dir`, `count_nodes`, `tree`

Modelling conventions:
  * Paths are lists of components (`List String`); a node's `path` is the full
    path from the root argument.
  * The filesystem is a value of type `FS` (the shape of the tree) together
    with an `Env` of oracles: `stat` (`none` models `path.stat()` raising
    `OSError`), `listOk` (`false` models `path.iterdir()` raising `OSError`),
    and `re_search` (the behaviour of Python's `re.search`, used by
    `check_pattern`; the engine never inspects it).
  * Python dict nodes become the tagged type `Node`.  A bare `ErrorContent`
    dict (which has no `type` key) is the constructor `Node.errc`.
  * Exceptions become `Except`: `Exc.sortType` is `TreeSortTypeError`,
    `Exc.osError` is an `OSError` escaping uncaught (possible only from the
    `stat` calls inside `sort_tree`'s mtime/ctime/size keys).
  * Machine integers do not occur; Python ints are `Int`/`Nat`.
  * Python's `str.isdigit` and `int` consult the Unicode character
    database; the embedding passes that database to `strverscmp` as
    explicit `PyDigits` data (`isdigit` plus per-character decimal
    values), with `pyDigitsSample` a concrete fragment recording the
    standard's classification for the characters used in concrete
    statements.  A `ValueError` raised by `int` is `Except.error`.
-/

namespace UTree

/-- Error payloads: `TreePermissionError` and `TreeFileLimitError(count)`. -/
inductive TError where
  | perm
  | fileLimit (count : Nat)
deriving DecidableEq, Repr

/-- Exceptions that can escape the engine uncaught. -/
inductive Exc where
  | sortType
  | osError
deriving DecidableEq, Repr

/-- The result of a successful `os.stat` call, restricted to the fields the
engine reads.  (`prot`, a pure string rendering of `mode` done by the
formatting layer, is not modelled.) -/
structure Stat where
  ino : Int
  dev : Int
  mode : Int
  uid : Int
  gid : Int
  size : Int
  mtime : Int
  ctime : Int
deriving DecidableEq, Repr

/-- The optional stat-derived attributes `fill_stat` merges into a node.
Each field is `some` only if the corresponding option requested it.
Owner/group name resolution through `pwd`/`grp` is abstracted to the numeric
fallback ids the code uses when resolution is unavailable. -/
structure Attrs where
  inode : Option Int
  dev : Option Int
  mode : Option Int
  user : Option Int
  group : Option Int
  size : Option Int
  time : Option Int
deriving DecidableEq, Repr

/-- The argparse `Namespace` fields consumed by the engine.  String-valued
flags that the code tests for truthiness (`ns.P`, `ns.I`, `ns.sort`) are
`String` with `""` meaning absent/falsy.  `ns.L` and `ns.filelimit` are
numeric strings or `None` in Python; `none` models absence and `some n` a
present (hence truthy, even for `"0"`) value.  The `R` field is the spec's
full-rescan flag, consumed only by the spec-modelled rescan engine. -/
structure Opts where
  a : Bool
  P : String
  I : String
  ignore_case : Bool
  matchdirs : Bool
  sort : String
  U : Bool
  v : Bool
  t : Bool
  c : Bool
  r : Bool
  dirsfirst : Bool
  L : Option Nat
  filelimit : Option Nat
  noreport : Bool
  inodes : Bool
  device : Bool
  p : Bool
  u : Bool
  g : Bool
  s : Bool
  h : Bool
  si : Bool
  timefmt : Bool
  D : Bool
  R : Bool
deriving Repr

/-- Filesystem shape: what entries exist under each directory, in the raw
(filesystem-listing) order `iterdir` produces them. -/
inductive FS where
  | file (name : String)
  | dir (name : String) (children : List FS)
deriving Repr

def fsName : FS → String
  | .file n => n
  | .dir n _ => n

/-- Environment oracles for the filesystem calls and `re.search`. -/
structure Env where
  stat : List String → Option Stat
  listOk : List String → Bool
  re_search : String → String → Bool → Bool

/-- Result-tree nodes.  `errc` is a bare `ErrorContent` dict (no `type`
key); `link` is the `errs_dict` shape with `type = "link"`. -/
inductive Node where
  | file (path : List String) (st : Option Attrs)
  | dir (path : List String) (st : Option Attrs) (contents : List Node)
  | link (path : List String) (contents : List Node)
  | errc (e : TError)
  | report (directories : Nat) (files : Nat)
deriving Repr

/-- The `type` field of a node dict; a bare `ErrorContent` has no `type`
key, modelled as `""` (never read by the code on such values). -/
def nodeType : Node → String
  | .file .. => "file"
  | .dir .. => "directory"
  | .link .. => "link"
  | .errc _ => ""
  | .report .. => "report"

/-- The `path` field; `errc`/`report` dicts have none (modelled `[]`,
never read by the code on such values). -/
def nodePath : Node → List String
  | .file p _ => p
  | .dir p _ _ => p
  | .link p _ => p
  | .errc _ => []
  | .report .. => []

/-- `Path.name`: the final component (`""` for an empty path). -/
def pathName : List String → String
  | [] => ""
  | [n] => n
  | _ :: rest => pathName rest

def nodeName (n : Node) : String := pathName (nodePath n)

/-- `dir_node["contents"] = x` on the node currently bound to `dir_node`
(a directory, or the link node `fill_stat` substituted for it). -/
def setContents : Node → List Node → Node
  | .dir p st _, cs => .dir p st cs
  | .link p _, cs => .link p cs
  | n, _ => n

/-- `file_dict` of tree1.py. -/
def file_dict (path : List String) : Node := .file path none

/-- `dir_dict` of tree1.py (contents start empty). -/
def dir_dict (path : List String) : Node := .dir path none []

/-- `errs_dict(path)` with one `err_dict` payload appended, as every use
site in tree1.py builds it. -/
def errs_with (path : List String) (e : TError) : Node := .link path [.errc e]

/- ------------------------------------------------------------------ -/
/- Python's stable `sorted` with a key, as insertion sort.             -/
/- ------------------------------------------------------------------ -/

/-- Insert `a` before the first element `b` with `le a b`; with
`le a b = key a ≤ key b` this realises Python's stable `sorted`. -/
def insertLe (le : α → α → Bool) (a : α) : List α → List α
  | [] => [a]
  | b :: l => if le a b then a :: b :: l else b :: insertLe le a l

/-- Stable sort (Python `sorted(l, key=k)` for `le x y = k x ≤ k y`). -/
def sortedBy (le : α → α → Bool) : List α → List α
  | [] => []
  | a :: l => insertLe le a (sortedBy le l)

theorem mem_insertLe (le : α → α → Bool) (a x : α) (l : List α) :
    x ∈ insertLe le a l ↔ x = a ∨ x ∈ l := by
  induction l with
  | nil => simp [insertLe]
  | cons b l ih =>
    by_cases hb : le a b = true <;> simp [insertLe, hb, ih] <;> tauto

theorem mem_sortedBy (le : α → α → Bool) (x : α) (l : List α) :
    x ∈ sortedBy le l ↔ x ∈ l := by
  induction l with
  | nil => simp [sortedBy]
  | cons a l ih => simp [sortedBy, mem_insertLe, ih]

theorem length_insertLe (le : α → α → Bool) (a : α) (l : List α) :
    (insertLe le a l).length = l.length + 1 := by
  induction l with
  | nil => simp [insertLe]
  | cons b l ih =>
    by_cases hb : le a b = true <;> simp [insertLe, hb, ih]

theorem length_sortedBy (le : α → α → Bool) (l : List α) :
    (sortedBy le l).length = l.length := by
  induction l with
  | nil => simp [sortedBy]
  | cons a l ih => simp [sortedBy, length_insertLe, ih]

theorem sizeOf_insertLe [SizeOf α] (le : α → α → Bool) (a : α) (l : List α) :
    sizeOf (insertLe le a l) = 1 + sizeOf a + sizeOf l := by
  induction l with
  | nil => simp [insertLe]
  | cons b l ih =>
    by_cases hb : le a b = true <;> simp [insertLe, hb, ih] <;> omega

theorem sizeOf_sortedBy [SizeOf α] (le : α → α → Bool) (l : List α) :
    sizeOf (sortedBy le l) = sizeOf l := by
  induction l with
  | nil => simp [sortedBy]
  | cons a l ih => simp [sortedBy, sizeOf_insertLe, ih]

/- ------------------------------------------------------------------ -/
/- String comparison primitives (code-point order, as Python).          -/
/- ------------------------------------------------------------------ -/

/-- Strict code-point lexicographic order on character lists. -/
def charsLt : List Char → List Char → Bool
  | [], [] => false
  | [], _ :: _ => true
  | _ :: _, [] => false
  | a :: l1, b :: l2 => if a = b then charsLt l1 l2 else a.toNat < b.toNat

/-- Non-strict code-point lexicographic order on character lists. -/
def charsLe : List Char → List Char → Bool
  | [], _ => true
  | _ :: _, [] => false
  | a :: l1, b :: l2 => if a = b then charsLe l1 l2 else a.toNat < b.toNat

def strLe (s1 s2 : String) : Bool := charsLe s1.toList s2.toList

/-- `s.startswith(t)` (Python), via character lists so that concrete
instances reduce in the kernel. -/
def charsPrefix : List Char → List Char → Bool
  | [], _ => true
  | _ :: _, [] => false
  | a :: l1, b :: l2 => a = b && charsPrefix l1 l2

def startswith (s t : String) : Bool := charsPrefix t.toList s.toList

/-- `s.lower()` (Python), ASCII range, via character lists so that concrete
instances reduce in the kernel. -/
def lowerStr (s : String) : String := String.mk (s.toList.map Char.toLower)

def strLt (s1 s2 : String) : Bool := charsLt s1.toList s2.toList

/- ------------------------------------------------------------------ -/
/- strverscmp (src/tree/gnu/strverscmp.py).                            -/
/- ------------------------------------------------------------------ -/

/-- Numeric value of a digit string, as Python `int(sub)`. -/
def natOfDigits (l : List Char) : Nat :=
  l.foldl (fun acc c => 10 * acc + (c.toNat - '0'.toNat)) 0

theorem length_dropWhile_digit_lt (c : Char) (r : List Char) (hc : c.isDigit = true) :
    ((c :: r).dropWhile Char.isDigit).length < (c :: r).length := by
  rw [List.dropWhile_cons_of_pos hc]
  have := (List.dropWhile_sublist (l := r) Char.isDigit).length_le
  simp only [List.length_cons]
  omega

/-- `is_fractional`: a run of length > 1 starting with `'0'`. -/
def isFrac (sub : List Char) : Bool :=
  decide (1 < sub.length) && (sub.headD 'x' = '0')

/-- Python's `str.isdigit` and `int` defer to the Unicode character
database: `c.isdigit()` is true for every character with the Unicode digit
property (all decimal digits — category Nd — plus digit-typed characters
such as the superscripts), while `int` accepts exactly the decimal digits
and raises `ValueError` on the others.  The embedding carries this
database as explicit data: `isdigit c` is Python's `c.isdigit()`, and
`decval c` is the decimal value `int` assigns to `c` (`none` when a run
containing `c` makes `int` raise). -/
structure PyDigits where
  isdigit : Char → Bool
  decval : Char → Option Nat

/-- The exception `int(sub)` raises on a run containing a character without
a decimal value. -/
inductive PyErr where
  | valueError
deriving DecidableEq, Repr

/-- Python `int(sub)` on a digit run: defined when the run is nonempty and
every character has a decimal value in the Unicode data, in which case the
result is the base-10 combination of those values; `none` is the
`ValueError` raise (triggered by `isdigit`-true characters that are not
decimal digits, such as the superscripts). -/
def pyInt (U : PyDigits) (l : List Char) : Option Nat :=
  if l ≠ [] ∧ ∀ c ∈ l, (U.decval c).isSome then
    some (l.foldl (fun a c => 10 * a + (U.decval c).getD 0) 0)
  else none

theorem length_dropWhile_head_lt (p : Char → Bool) (c : Char) (r : List Char)
    (hc : p c = true) : ((c :: r).dropWhile p).length < (c :: r).length := by
  rw [List.dropWhile_cons_of_pos hc]
  have := (List.dropWhile_sublist (l := r) p).length_le
  simp only [List.length_cons]
  omega

/-- The while loop of `strverscmp` over the unconsumed suffixes, with digit
classification and `int` conversion deferred to the Unicode digit data
`U`.  The two index pointers always advance in lockstep (a digit-run step
continues only when both runs have equal length), so the final
`len1 - len2` of the Python code equals the length difference of the
remaining suffixes.  The fractional checks (lines 29-35) precede the `int`
conversions (lines 37-38), so a one-sided-fractional return happens even
on a run that would make `int` raise; both conversions run before the
value comparison and either failing raises the same `ValueError`, so the
model tests both at once. -/
def strverscmpGo (U : PyDigits) : List Char → List Char → Except PyErr Int
  | c1 :: r1, c2 :: r2 =>
    if hdig : U.isdigit c1 && U.isdigit c2 then
      -- maximal digit runs from the current positions
      let sub1 := (c1 :: r1).takeWhile U.isdigit
      let sub2 := (c2 :: r2).takeWhile U.isdigit
      let rest1 := (c1 :: r1).dropWhile U.isdigit
      let rest2 := (c2 :: r2).dropWhile U.isdigit
      let fr1 := isFrac sub1
      let fr2 := isFrac sub2
      if fr1 && !fr2 then Except.ok (-1)
      else if !fr1 && fr2 then Except.ok 1
      else
        let o1 := pyInt U sub1
        let o2 := pyInt U sub2
        if o1.isNone || o2.isNone then Except.error PyErr.valueError
        else
          let num1 := o1.getD 0
          let num2 := o2.getD 0
          if num1 ≠ num2 then Except.ok ((num1 : Int) - (num2 : Int))
          else if !fr1 && !fr2 then
            if sub1.length ≠ sub2.length then
              Except.ok ((sub1.length : Int) - (sub2.length : Int))
            else strverscmpGo U rest1 rest2
          else
            if sub1.length ≠ sub2.length then
              Except.ok ((sub2.length : Int) - (sub1.length : Int))
            else strverscmpGo U rest1 rest2
    else
      if c1 ≠ c2 then Except.ok ((c1.toNat : Int) - (c2.toNat : Int))
      else strverscmpGo U r1 r2
  | r1, r2 => Except.ok ((r1.length : Int) - (r2.length : Int))
termination_by l1 _ => l1.length
decreasing_by
  all_goals first
    | exact length_dropWhile_head_lt U.isdigit c1 r1 ((Bool.and_eq_true ..).mp hdig).1
    | simp

def strverscmp (U : PyDigits) (s1 s2 : String) : Except PyErr Int :=
  strverscmpGo U s1.toList s2.toList

/-- A concrete fragment of the Unicode digit data, recording the
standard's classification verbatim for every character appearing in this
development: the ASCII digits `'0'`-`'9'` (decimal, values 0-9), the
Arabic-Indic digits U+0660-U+0669 (decimal, values 0-9), and the
superscripts `'¹'`, `'²'`, `'³'` (digits without a decimal value, on which
`int` raises).  All other characters are classified as non-digits. -/
def pyDigitsSample : PyDigits where
  isdigit c :=
    c.isDigit || (decide (0x660 ≤ c.toNat) && decide (c.toNat ≤ 0x669)) ||
      (c == '¹' || c == '²' || c == '³')
  decval c :=
    if c.isDigit then some (c.toNat - '0'.toNat)
    else if 0x660 ≤ c.toNat ∧ c.toNat ≤ 0x669 then some (c.toNat - 0x660)
    else none

/-- The Unicode tables extend the ASCII ones: every ASCII digit is
classified as a digit and carries its usual decimal value.  This holds for
Python's actual database and for any faithful fragment of it. -/
def asciiFaithful (U : PyDigits) : Prop :=
  ∀ c : Char, c.isDigit = true →
    U.isdigit c = true ∧ U.decval c = some (c.toNat - '0'.toNat)

theorem pyDigitsSample_asciiFaithful : asciiFaithful pyDigitsSample := by
  intro c hc
  refine ⟨?_, ?_⟩ <;> simp [pyDigitsSample, hc]

/-- The `strverscmp` loop specialised to the ASCII digit test: the
behaviour of the program on inputs none of whose characters are Unicode
digits beyond `'0'`-`'9'` (`strverscmpGo_ascii_agree` below), and the
reference point for the algebraic analysis. -/
def strverscmpAscii : List Char → List Char → Int
  | c1 :: r1, c2 :: r2 =>
    if hdig : c1.isDigit && c2.isDigit then
      let sub1 := (c1 :: r1).takeWhile Char.isDigit
      let sub2 := (c2 :: r2).takeWhile Char.isDigit
      let rest1 := (c1 :: r1).dropWhile Char.isDigit
      let rest2 := (c2 :: r2).dropWhile Char.isDigit
      let fr1 := isFrac sub1
      let fr2 := isFrac sub2
      if fr1 && !fr2 then -1
      else if !fr1 && fr2 then 1
      else
        let num1 := natOfDigits sub1
        let num2 := natOfDigits sub2
        if num1 ≠ num2 then (num1 : Int) - (num2 : Int)
        else if !fr1 && !fr2 then
          if sub1.length ≠ sub2.length then (sub1.length : Int) - (sub2.length : Int)
          else strverscmpAscii rest1 rest2
        else
          if sub1.length ≠ sub2.length then (sub2.length : Int) - (sub1.length : Int)
          else strverscmpAscii rest1 rest2
    else
      if c1 ≠ c2 then (c1.toNat : Int) - (c2.toNat : Int)
      else strverscmpAscii r1 r2
  | r1, r2 => (r1.length : Int) - (r2.length : Int)
termination_by l1 _ => l1.length
decreasing_by
  · exact length_dropWhile_digit_lt c1 r1 ((Bool.and_eq_true ..).mp hdig).1
  · simp

theorem isDigit_toNat_bounds (c : Char) (h : c.isDigit = true) :
    48 ≤ c.toNat ∧ c.toNat ≤ 57 := by
  simp [Char.isDigit, Char.le_def] at h
  exact ⟨h.1, h.2⟩

theorem char_toNat_inj (c1 c2 : Char) (h : c1.toNat = c2.toNat) : c1 = c2 := by
  calc c1 = Char.ofNat c1.toNat := (Char.ofNat_toNat c1).symm
    _ = Char.ofNat c2.toNat := by rw [h]
    _ = c2 := Char.ofNat_toNat c2

theorem natOfDigits_foldl_acc (l : List Char) (acc : Nat) :
    l.foldl (fun a c => 10 * a + (c.toNat - '0'.toNat)) acc =
      acc * 10 ^ l.length + natOfDigits l := by
  induction l generalizing acc with
  | nil => simp [natOfDigits]
  | cons c l ih =>
    simp only [List.foldl_cons, List.length_cons, natOfDigits]
    rw [ih, ih (10 * 0 + (c.toNat - '0'.toNat))]
    ring

theorem natOfDigits_cons (c : Char) (l : List Char) :
    natOfDigits (c :: l) = (c.toNat - '0'.toNat) * 10 ^ l.length + natOfDigits l := by
  show List.foldl _ _ (c :: l) = _
  rw [List.foldl_cons, natOfDigits_foldl_acc]
  ring_nf

theorem natOfDigits_lt_pow (l : List Char) (h : ∀ c ∈ l, c.isDigit = true) :
    natOfDigits l < 10 ^ l.length := by
  induction l with
  | nil => simp [natOfDigits]
  | cons c l ih =>
    have hd := isDigit_toNat_bounds c (h c (by simp))
    have hdc : c.toNat - '0'.toNat ≤ 9 := by
      have h0 : '0'.toNat = 48 := by decide
      omega
    have ih2 := ih (fun x hx => h x (by simp [hx]))
    rw [natOfDigits_cons]
    have h9 : (c.toNat - '0'.toNat) * 10 ^ l.length ≤ 9 * 10 ^ l.length :=
      Nat.mul_le_mul_right _ hdc
    have hp : 10 ^ (c :: l).length = 10 * 10 ^ l.length := by
      simp [pow_succ]; ring
    rw [hp]
    omega

/-- A digit string of a given length is determined by its numeric value:
the two tie-breaking branches of `strverscmp` compare runs that agree in
value and length, hence are character-identical. -/
theorem natOfDigits_inj (l1 : List Char) (l2 : List Char) (hlen : l1.length = l2.length)
    (h1 : ∀ c ∈ l1, c.isDigit = true) (h2 : ∀ c ∈ l2, c.isDigit = true)
    (hv : natOfDigits l1 = natOfDigits l2) : l1 = l2 := by
  induction l1 generalizing l2 with
  | nil =>
    cases l2 with
    | nil => rfl
    | cons c t => simp at hlen
  | cons c1 t1 ih =>
    cases l2 with
    | nil => simp at hlen
    | cons c2 t2 =>
      simp only [List.length_cons, Nat.succ.injEq] at hlen
      rw [natOfDigits_cons, natOfDigits_cons, hlen] at hv
      have hb1 := natOfDigits_lt_pow t1 (fun x hx => h1 x (by simp [hx]))
      have hb2 := natOfDigits_lt_pow t2 (fun x hx => h2 x (by simp [hx]))
      rw [hlen] at hb1
      -- equal digit-times-base-plus-rest decompositions with rest below the
      -- base force both parts equal
      have hdeq : c1.toNat - '0'.toNat = c2.toNat - '0'.toNat := by
        rcases Nat.lt_trichotomy (c1.toNat - '0'.toNat) (c2.toNat - '0'.toNat) with hlt | he | hgt
        · have hstep : (c1.toNat - '0'.toNat) + 1 ≤ c2.toNat - '0'.toNat := hlt
          have h3 : ((c1.toNat - '0'.toNat) + 1) * 10 ^ t2.length ≤
              (c2.toNat - '0'.toNat) * 10 ^ t2.length := Nat.mul_le_mul_right _ hstep
          nlinarith
        · exact he
        · have hstep : (c2.toNat - '0'.toNat) + 1 ≤ c1.toNat - '0'.toNat := hgt
          have h3 : ((c2.toNat - '0'.toNat) + 1) * 10 ^ t2.length ≤
              (c1.toNat - '0'.toNat) * 10 ^ t2.length := Nat.mul_le_mul_right _ hstep
          nlinarith
      have hc : c1 = c2 := by
        have b1 := isDigit_toNat_bounds c1 (h1 c1 (by simp))
        have b2 := isDigit_toNat_bounds c2 (h2 c2 (by simp))
        have h0 : '0'.toNat = 48 := by decide
        exact char_toNat_inj c1 c2 (by omega)
      have ht : t1 = t2 := by
        rw [hdeq] at hv
        apply ih t2 hlen (fun x hx => h1 x (List.mem_cons_of_mem _ hx))
          (fun x hx => h2 x (List.mem_cons_of_mem _ hx))
        omega
      rw [hc, ht]

/-- Joint antisymmetry and equality characterisation of the `strverscmp`
loop, by strong induction on the length of the first argument. -/
theorem strverscmp_core (n : Nat) : ∀ l1 l2 : List Char, l1.length ≤ n →
    (strverscmpAscii l2 l1 = - strverscmpAscii l1 l2) ∧ (strverscmpAscii l1 l2 = 0 ↔ l1 = l2) := by
  induction n with
  | zero =>
    intro l1 l2 h
    have h0 : l1 = [] := by
      cases l1 with
      | nil => rfl
      | cons a b => simp at h
    subst h0
    cases l2 with
    | nil => simp [strverscmpAscii]
    | cons c r =>
      have e1 : strverscmpAscii [] (c :: r) = (0 : Int) - ((r.length : Int) + 1) := by
        simp [strverscmpAscii]
      have e2 : strverscmpAscii (c :: r) [] = ((r.length : Int) + 1) - 0 := by
        simp [strverscmpAscii]
      rw [e1, e2]
      refine ⟨by omega, fun hz => absurd hz (by omega), fun hz => by simp at hz⟩
  | succ n ih =>
    intro l1 l2 hlen1
    cases l1 with
    | nil =>
      cases l2 with
      | nil => simp [strverscmpAscii]
      | cons c r =>
        have e1 : strverscmpAscii [] (c :: r) = (0 : Int) - ((r.length : Int) + 1) := by
          simp [strverscmpAscii]
        have e2 : strverscmpAscii (c :: r) [] = ((r.length : Int) + 1) - 0 := by
          simp [strverscmpAscii]
        rw [e1, e2]
        refine ⟨by omega, fun hz => absurd hz (by omega), fun hz => by simp at hz⟩
    | cons c1 r1 =>
      cases l2 with
      | nil =>
        have e1 : strverscmpAscii [] (c1 :: r1) = (0 : Int) - ((r1.length : Int) + 1) := by
          simp [strverscmpAscii]
        have e2 : strverscmpAscii (c1 :: r1) [] = ((r1.length : Int) + 1) - 0 := by
          simp [strverscmpAscii]
        rw [e1, e2]
        refine ⟨by omega, fun hz => absurd hz (by omega), fun hz => by simp at hz⟩
      | cons c2 r2 =>
        have hrtail : r1.length ≤ n := by
          simp at hlen1
          omega
        cases hd1 : c1.isDigit <;> cases hd2 : c2.isDigit
        case false.false =>
          by_cases hc : c1 = c2
          · subst hc
            have hr := ih r1 r2 hrtail
            constructor
            · rw [strverscmpAscii.eq_1, strverscmpAscii.eq_1]
              simpa [hd1] using hr.1
            · rw [strverscmpAscii.eq_1]
              simp [hd1, hr.2]
          · have hne : c1.toNat ≠ c2.toNat := fun h => hc (char_toNat_inj c1 c2 h)
            rw [strverscmpAscii.eq_1, strverscmpAscii.eq_1]
            constructor
            · simp [hd1, hd2, hc, Ne.symm hc]
            · simp [hd1, hd2, hc]
              omega
        case false.true =>
          have hc : c1 ≠ c2 := by
            intro h
            rw [h, hd2] at hd1
            simp at hd1
          have hne : c1.toNat ≠ c2.toNat := fun h => hc (char_toNat_inj c1 c2 h)
          rw [strverscmpAscii.eq_1, strverscmpAscii.eq_1]
          constructor
          · simp [hd1, hd2, hc, Ne.symm hc]
          · simp [hd1, hd2, hc]
            omega
        case true.false =>
          have hc : c1 ≠ c2 := by
            intro h
            rw [h, hd2] at hd1
            simp at hd1
          have hne : c1.toNat ≠ c2.toNat := fun h => hc (char_toNat_inj c1 c2 h)
          rw [strverscmpAscii.eq_1, strverscmpAscii.eq_1]
          constructor
          · simp [hd1, hd2, hc, Ne.symm hc]
          · simp [hd1, hd2, hc]
            omega
        case true.true =>
          have hds1 : ∀ x ∈ c1 :: List.takeWhile Char.isDigit r1, x.isDigit = true := by
            intro x hx
            rcases List.mem_cons.mp hx with h | h
            · rw [h]; exact hd1
            · exact List.mem_takeWhile_imp h
          have hds2 : ∀ x ∈ c2 :: List.takeWhile Char.isDigit r2, x.isDigit = true := by
            intro x hx
            rcases List.mem_cons.mp hx with h | h
            · rw [h]; exact hd2
            · exact List.mem_takeWhile_imp h
          have hrec := ih (List.dropWhile Char.isDigit r1) (List.dropWhile Char.isDigit r2)
            (le_trans (List.dropWhile_sublist Char.isDigit).length_le hrtail)
          have e1 : (c1 :: List.takeWhile Char.isDigit r1) ++ List.dropWhile Char.isDigit r1
              = c1 :: r1 := by
            rw [List.cons_append, List.takeWhile_append_dropWhile]
          have e2 : (c2 :: List.takeWhile Char.isDigit r2) ++ List.dropWhile Char.isDigit r2
              = c2 :: r2 := by
            rw [List.cons_append, List.takeWhile_append_dropWhile]
          rw [strverscmpAscii.eq_1, strverscmpAscii.eq_1]
          simp only [hd1, hd2, Bool.and_self, dite_true, List.takeWhile_cons_of_pos,
            List.dropWhile_cons_of_pos]
          cases hf1 : isFrac (c1 :: List.takeWhile Char.isDigit r1) <;>
            cases hf2 : isFrac (c2 :: List.takeWhile Char.isDigit r2)
          case false.false =>
            by_cases hnum : natOfDigits (c1 :: List.takeWhile Char.isDigit r1)
                = natOfDigits (c2 :: List.takeWhile Char.isDigit r2)
            · by_cases hl : (List.takeWhile Char.isDigit r1).length
                  = (List.takeWhile Char.isDigit r2).length
              · have hsub : c1 :: List.takeWhile Char.isDigit r1
                    = c2 :: List.takeWhile Char.isDigit r2 :=
                  natOfDigits_inj _ _ (by simp [hl]) hds1 hds2 hnum
                constructor
                · simp [hf1, hf2, hnum, hl]
                  exact hrec.1
                · simp [hf1, hf2, hnum, hl]
                  rw [hrec.2]
                  constructor
                  · intro hz
                    have : (c1 :: List.takeWhile Char.isDigit r1)
                          ++ List.dropWhile Char.isDigit r1
                        = (c2 :: List.takeWhile Char.isDigit r2)
                          ++ List.dropWhile Char.isDigit r2 := by
                      rw [hsub, hz]
                    rw [e1, e2] at this
                    simpa using this
                  · rintro ⟨hch, hr⟩
                    rw [hr]
              · constructor
                · simp [hf1, hf2, hnum, hl, Ne.symm hl]
                · have hne_list : ¬(c1 :: r1 = c2 :: r2) := by
                    intro h
                    injection h with hch hr
                    rw [hr] at hl
                    exact hl rfl
                  simp [hf1, hf2, hnum, hl, hne_list]
                  omega
            · constructor
              · simp [hf1, hf2, hnum, Ne.symm hnum]
              · have hne_list : ¬(c1 :: r1 = c2 :: r2) := by
                  intro h
                  injection h with hch hr
                  rw [hch, hr] at hnum
                  exact hnum rfl
                simp [hf1, hf2, hnum, hne_list]
                omega
          case false.true =>
            have hne_list : ¬(c1 :: r1 = c2 :: r2) := by
              intro h
              injection h with hch hr
              rw [hch, hr] at hf1
              rw [hf1] at hf2
              simp at hf2
            constructor
            · simp [hf1, hf2]
            · simp [hf1, hf2, hne_list]
          case true.false =>
            have hne_list : ¬(c1 :: r1 = c2 :: r2) := by
              intro h
              injection h with hch hr
              rw [hch, hr] at hf1
              rw [hf1] at hf2
              simp at hf2
            constructor
            · simp [hf1, hf2]
            · simp [hf1, hf2, hne_list]
          case true.true =>
            by_cases hnum : natOfDigits (c1 :: List.takeWhile Char.isDigit r1)
                = natOfDigits (c2 :: List.takeWhile Char.isDigit r2)
            · by_cases hl : (List.takeWhile Char.isDigit r1).length
                  = (List.takeWhile Char.isDigit r2).length
              · have hsub : c1 :: List.takeWhile Char.isDigit r1
                    = c2 :: List.takeWhile Char.isDigit r2 :=
                  natOfDigits_inj _ _ (by simp [hl]) hds1 hds2 hnum
                constructor
                · simp [hf1, hf2, hnum, hl]
                  exact hrec.1
                · simp [hf1, hf2, hnum, hl]
                  rw [hrec.2]
                  constructor
                  · intro hz
                    have : (c1 :: List.takeWhile Char.isDigit r1)
                          ++ List.dropWhile Char.isDigit r1
                        = (c2 :: List.takeWhile Char.isDigit r2)
                          ++ List.dropWhile Char.isDigit r2 := by
                      rw [hsub, hz]
                    rw [e1, e2] at this
                    simpa using this
                  · rintro ⟨hch, hr⟩
                    rw [hr]
              · constructor
                · simp [hf1, hf2, hnum, hl, Ne.symm hl]
                · have hne_list : ¬(c1 :: r1 = c2 :: r2) := by
                    intro h
                    injection h with hch hr
                    rw [hr] at hl
                    exact hl rfl
                  simp [hf1, hf2, hnum, hl, hne_list]
                  omega
            · constructor
              · simp [hf1, hf2, hnum, Ne.symm hnum]
              · have hne_list : ¬(c1 :: r1 = c2 :: r2) := by
                  intro h
                  injection h with hch hr
                  rw [hch, hr] at hnum
                  exact hnum rfl
                simp [hf1, hf2, hnum, hne_list]
                omega

theorem takeWhile_congr_mem (p q : Char → Bool) (l : List Char)
    (h : ∀ c ∈ l, p c = q c) : l.takeWhile p = l.takeWhile q := by
  induction l with
  | nil => rfl
  | cons c r ih =>
    have hc : p c = q c := h c (by simp)
    rw [List.takeWhile_cons, List.takeWhile_cons, hc]
    cases hq : q c
    · simp
    · simp [ih (fun x hx => h x (List.mem_cons_of_mem _ hx))]

theorem dropWhile_congr_mem (p q : Char → Bool) (l : List Char)
    (h : ∀ c ∈ l, p c = q c) : l.dropWhile p = l.dropWhile q := by
  induction l with
  | nil => rfl
  | cons c r ih =>
    have hc : p c = q c := h c (by simp)
    rw [List.dropWhile_cons, List.dropWhile_cons, hc]
    cases hq : q c
    · simp
    · simp [ih (fun x hx => h x (List.mem_cons_of_mem _ hx))]

theorem foldl_decval_ascii (U : PyDigits) (hU : asciiFaithful U) (l : List Char)
    (h : ∀ c ∈ l, c.isDigit = true) : ∀ acc : Nat,
    l.foldl (fun a c => 10 * a + (U.decval c).getD 0) acc =
      l.foldl (fun a c => 10 * a + (c.toNat - '0'.toNat)) acc := by
  induction l with
  | nil => intro acc; rfl
  | cons c r ih =>
    intro acc
    have hdv : U.decval c = some (c.toNat - '0'.toNat) := (hU c (h c (by simp))).2
    simp only [List.foldl_cons, hdv, Option.getD_some]
    exact ih (fun x hx => h x (List.mem_cons_of_mem _ hx)) _

/-- `int` on a nonempty all-ASCII-digit run never raises and computes the
value `natOfDigits` describes. -/
theorem pyInt_ascii (U : PyDigits) (hU : asciiFaithful U) (l : List Char)
    (hne : l ≠ []) (h : ∀ c ∈ l, c.isDigit = true) :
    pyInt U l = some (natOfDigits l) := by
  have hall : ∀ c ∈ l, (U.decval c).isSome := by
    intro c hc
    rw [(hU c (h c hc)).2]
    rfl
  simp only [pyInt, natOfDigits]
  rw [if_pos ⟨hne, hall⟩, foldl_decval_ascii U hU l h 0]

/-- On inputs whose characters the Unicode data classifies exactly as the
ASCII digit test does, the `strverscmp` loop never raises and agrees with
its ASCII specialisation. -/
theorem strverscmpGo_ascii_agree (U : PyDigits) (hU : asciiFaithful U) (n : Nat) :
    ∀ l1 l2 : List Char, l1.length ≤ n →
    (∀ c ∈ l1, U.isdigit c = c.isDigit) →
    (∀ c ∈ l2, U.isdigit c = c.isDigit) →
    strverscmpGo U l1 l2 = Except.ok (strverscmpAscii l1 l2) := by
  induction n with
  | zero =>
    intro l1 l2 hlen h1 h2
    have h0 : l1 = [] := by
      cases l1 with
      | nil => rfl
      | cons a b => simp at hlen
    subst h0
    cases l2 with
    | nil => simp [strverscmpGo, strverscmpAscii]
    | cons c r => simp [strverscmpGo, strverscmpAscii]
  | succ n ih =>
    intro l1 l2 hlen1 h1 h2
    cases l1 with
    | nil =>
      cases l2 with
      | nil => simp [strverscmpGo, strverscmpAscii]
      | cons c r => simp [strverscmpGo, strverscmpAscii]
    | cons c1 r1 =>
      cases l2 with
      | nil => simp [strverscmpGo, strverscmpAscii]
      | cons c2 r2 =>
        have hrtail : r1.length ≤ n := by
          simp at hlen1
          omega
        have hU1 : U.isdigit c1 = c1.isDigit := h1 c1 (by simp)
        have hU2 : U.isdigit c2 = c2.isDigit := h2 c2 (by simp)
        have h1t : ∀ c ∈ r1, U.isdigit c = c.isDigit :=
          fun x hx => h1 x (List.mem_cons_of_mem _ hx)
        have h2t : ∀ c ∈ r2, U.isdigit c = c.isDigit :=
          fun x hx => h2 x (List.mem_cons_of_mem _ hx)
        rw [strverscmpGo.eq_1, strverscmpAscii.eq_1]
        cases hd1 : c1.isDigit <;> cases hd2 : c2.isDigit
        case false.false =>
          by_cases hc : c1 = c2
          · subst hc
            have hrec := ih r1 r2 hrtail h1t h2t
            simp [hU1, hd1, hrec]
          · simp [hU1, hU2, hd1, hd2, hc]
        case false.true =>
          have hc : c1 ≠ c2 := by
            intro h
            rw [h, hd2] at hd1
            simp at hd1
          simp [hU1, hU2, hd1, hd2, hc]
        case true.false =>
          have hc : c1 ≠ c2 := by
            intro h
            rw [h, hd2] at hd1
            simp at hd1
          simp [hU1, hU2, hd1, hd2, hc]
        case true.true =>
          have hU1t : U.isdigit c1 = true := by rw [hU1]; exact hd1
          have hU2t : U.isdigit c2 = true := by rw [hU2]; exact hd2
          have hds1 : ∀ x ∈ c1 :: List.takeWhile Char.isDigit r1, x.isDigit = true := by
            intro x hx
            rcases List.mem_cons.mp hx with h | h
            · rw [h]; exact hd1
            · exact List.mem_takeWhile_imp h
          have hds2 : ∀ x ∈ c2 :: List.takeWhile Char.isDigit r2, x.isDigit = true := by
            intro x hx
            rcases List.mem_cons.mp hx with h | h
            · rw [h]; exact hd2
            · exact List.mem_takeWhile_imp h
          simp only [hU1t, hU2t, hd1, hd2, Bool.and_self, dite_true,
            List.takeWhile_cons_of_pos, List.dropWhile_cons_of_pos]
          rw [takeWhile_congr_mem U.isdigit Char.isDigit r1 h1t,
            takeWhile_congr_mem U.isdigit Char.isDigit r2 h2t,
            dropWhile_congr_mem U.isdigit Char.isDigit r1 h1t,
            dropWhile_congr_mem U.isdigit Char.isDigit r2 h2t]
          rw [pyInt_ascii U hU _ (by simp) hds1, pyInt_ascii U hU _ (by simp) hds2]
          have hrec := ih (List.dropWhile Char.isDigit r1) (List.dropWhile Char.isDigit r2)
            (le_trans (List.dropWhile_sublist Char.isDigit).length_le hrtail)
            (fun x hx => h1t x ((List.dropWhile_sublist _).subset hx))
            (fun x hx => h2t x ((List.dropWhile_sublist _).subset hx))
          cases hf1 : isFrac (c1 :: List.takeWhile Char.isDigit r1) <;>
            cases hf2 : isFrac (c2 :: List.takeWhile Char.isDigit r2)
          case false.false =>
            by_cases hnum : natOfDigits (c1 :: List.takeWhile Char.isDigit r1)
                = natOfDigits (c2 :: List.takeWhile Char.isDigit r2)
            · by_cases hl : (List.takeWhile Char.isDigit r1).length
                  = (List.takeWhile Char.isDigit r2).length
              · simp [hf1, hf2, hnum, hl, hrec]
              · simp [hf1, hf2, hnum, hl]
            · simp [hf1, hf2, hnum]
          case false.true =>
            simp [hf1, hf2]
          case true.false =>
            simp [hf1, hf2]
          case true.true =>
            by_cases hnum : natOfDigits (c1 :: List.takeWhile Char.isDigit r1)
                = natOfDigits (c2 :: List.takeWhile Char.isDigit r2)
            · by_cases hl : (List.takeWhile Char.isDigit r1).length
                  = (List.takeWhile Char.isDigit r2).length
              · simp [hf1, hf2, hnum, hl, hrec]
              · simp [hf1, hf2, hnum, hl]
            · simp [hf1, hf2, hnum]

/- ------------------------------------------------------------------ -/
/- check_pattern and filter_item (tree1.py).                           -/
/- ------------------------------------------------------------------ -/

/-- `check_pattern`: a falsy (empty) pattern always matches; otherwise
defers to the `re.search` oracle of the environment. -/
def check_pattern (env : Env) (name pattern : String) (ignore_case : Bool) : Bool :=
  if pattern = "" then true
  else env.re_search pattern name ignore_case

/-- `filter_item`: the hidden-name rule first, then (when some pattern is
configured) the exclude/include pattern rules, applied only to nodes that
`should_match_pattern`. -/
def filter_item (env : Env) (item : Node) (ns : Opts) : Bool :=
  let name := nodeName item
  if ns.a = false ∧ name ≠ "." ∧ name ≠ ".." ∧ startswith name "." then false
  else if ns.P = "" ∧ ns.I = "" then true
  else
    let should_match_pattern :=
      (nodeType item = "directory" && ns.matchdirs) || !(nodeType item == "directory")
    if should_match_pattern then
      if ns.I ≠ "" ∧ check_pattern env name ns.I ns.ignore_case then false
      else if ns.P ≠ "" ∧ ¬check_pattern env name ns.P ns.ignore_case then false
      else true
    else true

/- ------------------------------------------------------------------ -/
/- sort_tree (tree1.py).                                               -/
/- ------------------------------------------------------------------ -/

/-- Modelled from the spec: `TreeSortTypeError.possible_values` lives in
`tree_exc.py`, which is not among the provided sources.  The spec's options
table fixes the recognised sort modes as name|version|mtime|ctime|size. -/
def possible_values : List String := ["name", "version", "mtime", "ctime", "size"]

/-- Token of the `version_key`: Python's `re.split("([0-9]+)", name)` list
after `int(...)` conversion of the digit pieces. -/
inductive VTok where
  | num (n : Nat)
  | str (s : String)
deriving DecidableEq, Repr

theorem splitVer_dec (l : List Char) (c : Char) (rs : List Char)
    (h : l.dropWhile (fun c => !c.isDigit) = c :: rs) :
    ((c :: rs).dropWhile Char.isDigit).length < l.length := by
  have hc : c.isDigit = true := by
    have h3 := List.head?_dropWhile_not (fun c => !c.isDigit) l
    rw [h] at h3
    simpa using h3
  have h1 := length_dropWhile_digit_lt c rs hc
  have h2 : (c :: rs).length ≤ l.length := by
    have := (List.dropWhile_sublist (l := l) (fun c => !c.isDigit)).length_le
    rw [h] at this
    exact this
  omega

/-- `re.split("([0-9]+)", name)` with digit groups converted to ints: an
alternating text/number token list, beginning and ending with a (possibly
empty) text piece. -/
def splitVer (l : List Char) : List VTok :=
  let text := l.takeWhile (fun c => !c.isDigit)
  match hrest : l.dropWhile (fun c => !c.isDigit) with
  | [] => [VTok.str (String.mk text)]
  | c :: rs =>
    let digits := (c :: rs).takeWhile Char.isDigit
    VTok.str (String.mk text) :: VTok.num (natOfDigits digits) ::
      splitVer ((c :: rs).dropWhile Char.isDigit)
termination_by l.length
decreasing_by
  exact splitVer_dec l c rs hrest

/-- Comparison of single tokens, strict.  Python compares ints to ints and
strings to strings; an int/str pair would raise `TypeError`, but the
alternating shape produced by `splitVer` makes positions type-homogeneous,
so the mixed cases below are unreachable in every use. -/
def vtokLt : VTok → VTok → Bool
  | .num ai, .num bi => ai < bi
  | .str as, .str bs => strLt as bs
  | .num _, .str _ => true
  | .str _, .num _ => false

/-- Python list comparison (lexicographic, shorter-is-smaller), non-strict. -/
def vlistLe : List VTok → List VTok → Bool
  | [], _ => true
  | _ :: _, [] => false
  | a :: l1, b :: l2 => if a = b then vlistLe l1 l2 else vtokLt a b

/-- The `version_key` of `sort_tree`. -/
def version_key (item : Node) : List VTok :=
  splitVer (lowerStr (nodeName item)).toList

/-- The `dirsfirst_key`: `{"directory": 0, "file": 1}.get(type, 2)`. -/
def dirsfirst_key (item : Node) : Nat :=
  if nodeType item = "directory" then 0
  else if nodeType item = "file" then 1
  else 2

/-- Key for the name sort: `item['path'].name.lower()`. -/
def name_key (item : Node) : String := lowerStr (nodeName item)

/-- Stable sort of nodes by an `Int` key read from a fresh `stat` of each
item's path (the mtime/ctime/size strategies).  Keys are computed first, in
list order, as CPython's `sorted` does; a failing `stat` raises `OSError`,
which nothing in `tree_dir` or `tree` catches. -/
def statKeys (env : Env) (key : Stat → Int) : List Node → Except Exc (List (Node × Int))
  | [] => Except.ok []
  | x :: rest =>
    match env.stat (nodePath x) with
    | some st =>
      match statKeys env key rest with
      | Except.error e => Except.error e
      | Except.ok ks => Except.ok ((x, key st) :: ks)
    | none => Except.error Exc.osError

/-- Stable sort of nodes by a `statKeys` key (descending for mtime/ctime,
ascending for size). -/
def sortByStat (env : Env) (key : Stat → Int) (desc : Bool) (items : List Node) :
    Except Exc (List Node) :=
  match statKeys env key items with
  | Except.error e => Except.error e
  | Except.ok keyed =>
    let le : Node × Int → Node × Int → Bool :=
      if desc then fun pq qq => qq.2 ≤ pq.2 else fun pq qq => pq.2 ≤ qq.2
    Except.ok ((sortedBy le keyed).map Prod.fst)

/-- The strategy-selection if/elif chain of `sort_tree`, producing
`sorted_items` before the reverse and dirs-first steps; the branches
mirror the source's precedence order. -/
def strategy_sort (env : Env) (ns : Opts) (tree_list : List Node) : Except Exc (List Node) :=
  if ns.sort ≠ "" ∧ lowerStr ns.sort = "name" then
    Except.ok (sortedBy (fun x y => strLe (name_key x) (name_key y)) tree_list)
  else if ns.v ∨ (ns.sort ≠ "" ∧ lowerStr ns.sort = "version") then
    Except.ok (sortedBy (fun x y => vlistLe (version_key x) (version_key y)) tree_list)
  else if ns.t ∨ (ns.sort ≠ "" ∧ lowerStr ns.sort = "mtime") then
    sortByStat env (fun st => st.mtime) true tree_list
  else if ns.c ∨ (ns.sort ≠ "" ∧ lowerStr ns.sort = "ctime") then
    sortByStat env (fun st => st.ctime) true tree_list
  else if ns.sort ≠ "" ∧ lowerStr ns.sort = "size" then
    sortByStat env (fun st => st.size) false tree_list
  else
    Except.ok (sortedBy (fun x y => strLe (name_key x) (name_key y)) tree_list)

/-- `sort_tree` of tree1.py.  Raising `TreeSortTypeError` is the
`Exc.sortType` error; the validity check, the `-U` early return, the
strategy selection, the reverse step and the dirs-first step follow the
source in order. -/
def sort_tree (env : Env) (ns : Opts) (tree_list : List Node) : Except Exc (List Node) :=
  if ns.sort ≠ "" ∧ ns.sort ∉ possible_values then Except.error Exc.sortType
  else if ns.U then Except.ok tree_list
  else
    match strategy_sort env ns tree_list with
    | Except.error e => Except.error e
    | Except.ok sorted_items =>
      let sorted_items := if ns.r then sorted_items.reverse else sorted_items
      let sorted_items :=
        if ns.dirsfirst ∧ ¬ns.U then
          sortedBy (fun x y => dirsfirst_key x ≤ dirsfirst_key y) sorted_items
        else sorted_items
      Except.ok sorted_items

/- ------------------------------------------------------------------ -/
/- Stat attachment (fill_stat and its helpers, tree1.py).              -/
/- ------------------------------------------------------------------ -/

/-- `get_st_size`. -/
def get_st_size (st : Stat) (ns : Opts) : Option Int :=
  if ns.s ∨ ns.h ∨ ns.si then some st.size else none

/-- `get_datetime` (the timestamp, conversion to `datetime` elided). -/
def get_datetime (st : Stat) (ns : Opts) : Option Int :=
  if ns.timefmt ∨ ns.D then some st.mtime else none

/-- `get_owner_and_group`, abstracted to the numeric-id fallback the code
uses when `pwd`/`grp` name resolution is unavailable. -/
def get_owner_and_group (st : Stat) (ns : Opts) : Option Int × Option Int :=
  (if ns.u then some st.uid else none, if ns.g then some st.gid else none)

/-- The attribute set merged by a successful `fill_stat`. -/
def attrsOf (ns : Opts) (st : Stat) : Attrs :=
  { inode := if ns.inodes then some st.ino else none
    dev := if ns.device then some st.dev else none
    mode := if ns.p then some st.mode else none
    user := (get_owner_and_group st ns).1
    group := (get_owner_and_group st ns).2
    size := get_st_size st ns
    time := get_datetime st ns }

/-- Merging the `fill_stat` attribute dict into a node keeps every other
key (in particular a directory's `contents`). -/
def setAttrs : Node → Attrs → Node
  | .file p _, at2 => .file p (some at2)
  | .dir p _ cs, at2 => .dir p (some at2) cs
  | n, _ => n

/-- `fill_stat`: non file/directory nodes pass through; a failing `stat`
replaces the node with an `errs_dict` link holding one
`TreePermissionError` payload. -/
def fill_stat (env : Env) (ns : Opts) (node : Node) : Node :=
  if nodeType node = "file" ∨ nodeType node = "directory" then
    match env.stat (nodePath node) with
    | some st => setAttrs node (attrsOf ns st)
    | none => errs_with (nodePath node) TError.perm
  else node

/- ------------------------------------------------------------------ -/
/- tree_dir (tree1.py).                                                -/
/- ------------------------------------------------------------------ -/

/-- `ns.L and level >= int(ns.L)` — a present `-L` value (a non-empty,
hence truthy, string) compared against the level. -/
def depth_guard (L : Option Nat) (level : Nat) : Bool :=
  match L with
  | none => false
  | some n => decide (n ≤ level)

/-- `ns.filelimit and len(subpaths) > int(ns.filelimit)`. -/
def over_filelimit (fl : Option Nat) (count : Nat) : Bool :=
  match fl with
  | none => false
  | some lim => decide (lim < count)

/-- `path.is_file()`: Python's `Path.is_file` stats the path and returns
`False` when the `stat` raises `OSError`, so a file entry with a failing
stat takes the directory branch of `tree_dir`. -/
def path_is_file (env : Env) (fs : FS) (path : List String) : Bool :=
  match fs with
  | .file _ => (env.stat path).isSome
  | .dir _ _ => false

/-- `path.iterdir()`: `none` models the call raising `OSError` — always for
a non-directory (`NotADirectoryError`), and for a directory whenever the
`listOk` oracle denies the listing. -/
def listdir (env : Env) (fs : FS) (path : List String) : Option (List FS) :=
  match fs with
  | .file _ => none
  | .dir _ ch => if env.listOk path then some ch else none

theorem listdir_sizeOf (env : Env) (fs : FS) (path : List String) (ch : List FS)
    (h : listdir env fs path = some ch) : sizeOf ch < sizeOf fs := by
  cases fs with
  | file n => simp [listdir] at h
  | dir n ch2 =>
    simp only [listdir] at h
    by_cases hl : env.listOk path = true
    · simp [hl] at h
      subst h
      simp
      try omega
    · simp [hl] at h

/-- Comparison used by `sorted(path.iterdir())`: sibling `Path` values
share every part but the final name, so `Path` order is code-point order
on the names. -/
def iterdirLe (x y : FS) : Bool := strLe (fsName x) (fsName y)

mutual

/-- `tree_dir` of tree1.py, for one filesystem entry `fs` whose full path
is `path`.  The Python function returns either `[]` (a filtered-out entry),
or a single node; both are normalised here to a `List Node` the caller
concatenates, exactly as the call sites' `extend`/`append` do. -/
def tree_dir (env : Env) (ns : Opts) (fs : FS) (path : List String) (level : Nat) :
    Except Exc (List Node) :=
  if path_is_file env fs path then
    let node := file_dict path
    if filter_item env node ns = false then Except.ok []
    else Except.ok [fill_stat env ns node]
  else
    let dir_node := dir_dict path
    if filter_item env dir_node ns = false then Except.ok []
    else
      let dir_node := fill_stat env ns dir_node
      if depth_guard ns.L level then Except.ok [dir_node]
      else
        match hls : listdir env fs path with
        | none =>
            Except.ok [setContents dir_node [errs_with path TError.perm]]
        | some ch =>
            let subpaths := sortedBy iterdirLe ch
            if over_filelimit ns.filelimit subpaths.length then
              Except.ok [setContents dir_node [Node.errc (TError.fileLimit subpaths.length)]]
            else
              match tree_sub env ns subpaths path level with
              | Except.error e => Except.error e
              | Except.ok contents =>
                match sort_tree env ns contents with
                | Except.error e => Except.error e
                | Except.ok sorted => Except.ok [setContents dir_node sorted]
termination_by sizeOf fs
decreasing_by
  have := listdir_sizeOf env fs path ch hls
  rw [sizeOf_sortedBy]
  exact this

/-- The `for sub_path in subpaths` loop of `tree_dir`, recursing at
`level + 1` and concatenating the children's contributions. -/
def tree_sub (env : Env) (ns : Opts) (l : List FS) (path : List String) (level : Nat) :
    Except Exc (List Node) :=
  match l with
  | [] => Except.ok []
  | sub :: rest =>
    match tree_dir env ns sub (path ++ [fsName sub]) (level + 1) with
    | Except.error e => Except.error e
    | Except.ok child =>
      match tree_sub env ns rest path level with
      | Except.error e => Except.error e
      | Except.ok others => Except.ok (child ++ others)
termination_by sizeOf l
decreasing_by all_goals (simp; try omega)

end

/- ------------------------------------------------------------------ -/
/- count_nodes and tree (tree1.py).                                    -/
/- ------------------------------------------------------------------ -/

/-- `"type" in child`: every node dict has a `type` key except a bare
`ErrorContent`. -/
def has_type_key : Node → Bool
  | .errc _ => false
  | _ => true

mutual

/-- `count_nodes`: `(dirs, files)` for one node; `link` and `report` fall
to the final branch and contribute `(0, 0)` without being descended. -/
def count_nodes : Node → Nat × Nat
  | .file _ _ => (0, 1)
  | .dir _ _ contents => count_fold contents (1, 0)
  | _ => (0, 0)
termination_by n => sizeOf n
decreasing_by all_goals (simp; try omega)

/-- The accumulation loop of `count_nodes` over a directory's contents,
skipping children without a `type` key. -/
def count_fold : List Node → Nat × Nat → Nat × Nat
  | [], acc => acc
  | child :: rest, acc =>
      if has_type_key child then
        count_fold rest (acc.1 + (count_nodes child).1, acc.2 + (count_nodes child).2)
      else
        count_fold rest acc
termination_by l _ => sizeOf l
decreasing_by all_goals (simp; try omega)

end

/-- The `for path in paths` loop of `tree`, at level 0; a root's path is
its own single component. -/
def tree_roots (env : Env) (ns : Opts) : List FS → Except Exc (List Node)
  | [] => Except.ok []
  | root :: rest =>
    match tree_dir env ns root [fsName root] 0 with
    | Except.error e => Except.error e
    | Except.ok node =>
      match tree_roots env ns rest with
      | Except.error e => Except.error e
      | Except.ok others => Except.ok (node ++ others)

/-- The report-totals accumulation of `tree`. -/
def totals (nodes : List Node) : Nat × Nat :=
  nodes.foldl (fun acc n => (acc.1 + (count_nodes n).1, acc.2 + (count_nodes n).2)) (0, 0)

/-- `tree` of tree1.py: walk every root, then (unless `noreport`) append a
single report node carrying the accumulated totals. -/
def tree (env : Env) (ns : Opts) (paths : List FS) : Except Exc (List Node) :=
  match tree_roots env ns paths with
  | Except.error e => Except.error e
  | Except.ok nodes =>
    if ns.noreport then Except.ok nodes
    else Except.ok (nodes ++ [Node.report (totals nodes).1 (totals nodes).2])

/- ------------------------------------------------------------------ -/
/- The depth-limit rescan engine.                                      -/
/- ------------------------------------------------------------------ -/

mutual

/-- Modelled from the spec: tree1.py (the provided source revision) has no
full-rescan option — the repository's revision carrying it is not under the
provided sources.  Following §4.1 of the spec: the depth guard stops normal
descent at `level >= L`, leaving the boundary directory's contents empty;
with the full-rescan option `R` enabled, a second pass runs over the same
immediate children with the sticky `rescanned` flag set (which disables the
depth guard for the whole sub-walk), its results are sorted independently
and appended after the empty first-pass content list.  Every other branch
is the `tree_dir` of tree1.py with the `rescanned` flag threaded through.
The spec leaves the boundary's listing-failure behaviour unstated; it is
modelled like the normal listing-failure branch (one error-link child). -/
def tree_dir_r (env : Env) (ns : Opts) (fs : FS) (path : List String) (level : Nat)
    (rescanned : Bool) : Except Exc (List Node) :=
  if path_is_file env fs path then
    let node := file_dict path
    if filter_item env node ns = false then Except.ok []
    else Except.ok [fill_stat env ns node]
  else
    let dir_node := dir_dict path
    if filter_item env dir_node ns = false then Except.ok []
    else
      let dir_node := fill_stat env ns dir_node
      if rescanned = false ∧ depth_guard ns.L level then
        if ns.R then
          match hls : listdir env fs path with
          | none =>
              Except.ok [setContents dir_node [errs_with path TError.perm]]
          | some ch =>
              match tree_sub_r env ns (sortedBy iterdirLe ch) path (level + 1) true with
              | Except.error e => Except.error e
              | Except.ok second =>
                match sort_tree env ns second with
                | Except.error e => Except.error e
                | Except.ok sorted => Except.ok [setContents dir_node ([] ++ sorted)]
        else Except.ok [dir_node]
      else
        match hls : listdir env fs path with
        | none =>
            Except.ok [setContents dir_node [errs_with path TError.perm]]
        | some ch =>
            let subpaths := sortedBy iterdirLe ch
            if over_filelimit ns.filelimit subpaths.length then
              Except.ok [setContents dir_node [Node.errc (TError.fileLimit subpaths.length)]]
            else
              match tree_sub_r env ns subpaths path level rescanned with
              | Except.error e => Except.error e
              | Except.ok contents =>
                match sort_tree env ns contents with
                | Except.error e => Except.error e
                | Except.ok sorted => Except.ok [setContents dir_node sorted]
termination_by sizeOf fs
decreasing_by all_goals (rw [sizeOf_sortedBy]; exact listdir_sizeOf env fs path ch hls)

/-- The child loop of the rescan engine; the `rescanned` flag is passed
down unchanged (sticky once set). -/
def tree_sub_r (env : Env) (ns : Opts) (l : List FS) (path : List String) (level : Nat)
    (rescanned : Bool) : Except Exc (List Node) :=
  match l with
  | [] => Except.ok []
  | sub :: rest =>
    match tree_dir_r env ns sub (path ++ [fsName sub]) (level + 1) rescanned with
    | Except.error e => Except.error e
    | Except.ok child =>
      match tree_sub_r env ns rest path level rescanned with
      | Except.error e => Except.error e
      | Except.ok others => Except.ok (child ++ others)
termination_by sizeOf l
decreasing_by all_goals (simp; try omega)

end

/- ------------------------------------------------------------------ -/
/- Aggregation as the spec words it (refinement comparison for C4).    -/
/- ------------------------------------------------------------------ -/

mutual

/-- Aggregation as the claim states it: a `file` contributes `(0, 1)`; a
`directory` contributes `(1, 0)` plus the summed contribution of exactly
those children that are themselves `file` or `directory` nodes; `error-link`
and `report` nodes contribute `(0, 0)` and are not descended into.  This is
a second, claim-side definition to be compared with `count_nodes`. -/
def spec_count : Node → Nat × Nat
  | .file _ _ => (0, 1)
  | .dir _ _ contents => ((spec_fold contents).1 + 1, (spec_fold contents).2)
  | _ => (0, 0)
termination_by n => sizeOf n
decreasing_by all_goals (simp; try omega)

/-- Sum of `spec_count` over the file/directory children only. -/
def spec_fold : List Node → Nat × Nat
  | [] => (0, 0)
  | child :: rest =>
      if nodeType child = "file" ∨ nodeType child = "directory" then
        ((spec_count child).1 + (spec_fold rest).1, (spec_count child).2 + (spec_fold rest).2)
      else spec_fold rest
termination_by l => sizeOf l
decreasing_by all_goals (simp; try omega)

end

/-- Claim-side totals over a list of roots. -/
def spec_totals (nodes : List Node) : Nat × Nat :=
  nodes.foldl (fun acc n => (acc.1 + (spec_count n).1, acc.2 + (spec_count n).2)) (0, 0)

/- ------------------------------------------------------------------ -/
/- Concrete fixtures used by witnesses and counterexamples.            -/
/- ------------------------------------------------------------------ -/

/-- A fixed stat result. -/
def stA : Stat := ⟨1, 2, 3, 4, 5, 6, 7, 8⟩

/-- Every stat succeeds, every listing succeeds, no pattern ever matches. -/
def envA : Env := ⟨fun _ => some stA, fun _ => true, fun _ _ _ => false⟩

/-- Every stat fails, every listing fails, no pattern ever matches. -/
def envN : Env := ⟨fun _ => none, fun _ => false, fun _ _ _ => false⟩

/-- Baseline options: everything off / absent. -/
def nsBase : Opts :=
  ⟨false, "", "", false, false, "", false, false, false, false, false, false,
   none, none, false, false, false, false, false, false, false, false, false,
   false, false, false⟩

/- ================================================================== -/
/- Claim theorems.                                                     -/
/- ================================================================== -/

/-- C5: VersionCompare satisfies the published test vectors exactly —
`strverscmp "img2" "img10"` is negative, `strverscmp "file01" "file1"` is
negative, `strverscmp "abc" "abc"` is zero, `strverscmp "a" "ab"` is
negative, `strverscmp "10a" "9a"` is positive (all ASCII inputs, evaluated
under the sample Unicode digit data) — and under any digit data, when
exactly one of two facing digit runs is fractional (length > 1, leading
`'0'`), the fractional side sorts first regardless of numeric value. -/
theorem claim_C5_strverscmp_vectors :
    (∃ k : Int, strverscmp pyDigitsSample "img2" "img10" = Except.ok k ∧ k < 0) ∧
    (∃ k : Int, strverscmp pyDigitsSample "file01" "file1" = Except.ok k ∧ k < 0) ∧
    strverscmp pyDigitsSample "abc" "abc" = Except.ok 0 ∧
    (∃ k : Int, strverscmp pyDigitsSample "a" "ab" = Except.ok k ∧ k < 0) ∧
    (∃ k : Int, strverscmp pyDigitsSample "10a" "9a" = Except.ok k ∧ 0 < k) ∧
    (∀ (U : PyDigits) (c1 c2 : Char) (r1 r2 : List Char),
      U.isdigit c1 = true → U.isdigit c2 = true →
      isFrac ((c1 :: r1).takeWhile U.isdigit) = true →
      isFrac ((c2 :: r2).takeWhile U.isdigit) = false →
      strverscmpGo U (c1 :: r1) (c2 :: r2) = Except.ok (-1)) := by
  refine ⟨⟨-8, ?_, by norm_num⟩, ⟨-1, ?_, by norm_num⟩, ?_, ⟨-1, ?_, by norm_num⟩,
    ⟨1, ?_, by norm_num⟩, ?_⟩
  · have h : strverscmp pyDigitsSample "img2" "img10" =
        strverscmpGo pyDigitsSample ['i','m','g','2'] ['i','m','g','1','0'] := rfl
    rw [h]
    simp +decide [strverscmpGo, pyDigitsSample, pyInt, natOfDigits,
      List.takeWhile, List.dropWhile]
  · have h : strverscmp pyDigitsSample "file01" "file1" =
        strverscmpGo pyDigitsSample ['f','i','l','e','0','1'] ['f','i','l','e','1'] := rfl
    rw [h]
    simp +decide [strverscmpGo, pyDigitsSample, pyInt, natOfDigits,
      List.takeWhile, List.dropWhile, isFrac]
  · have h : strverscmp pyDigitsSample "abc" "abc" =
        strverscmpGo pyDigitsSample ['a','b','c'] ['a','b','c'] := rfl
    rw [h]
    simp +decide [strverscmpGo, pyDigitsSample]
  · have h : strverscmp pyDigitsSample "a" "ab" =
        strverscmpGo pyDigitsSample ['a'] ['a','b'] := rfl
    rw [h]
    simp +decide [strverscmpGo, pyDigitsSample]
  · have h : strverscmp pyDigitsSample "10a" "9a" =
        strverscmpGo pyDigitsSample ['1','0','a'] ['9','a'] := rfl
    rw [h]
    simp +decide [strverscmpGo, pyDigitsSample, pyInt, natOfDigits,
      List.takeWhile, List.dropWhile, isFrac]
  · intro U c1 c2 r1 r2 hd1 hd2 hf1 hf2
    rw [List.takeWhile_cons_of_pos hd1] at hf1
    rw [List.takeWhile_cons_of_pos hd2] at hf2
    rw [strverscmpGo.eq_1]
    simp [hd1, hd2, hf1, hf2]

/-- Witness for C5's general fractional rule, at the `"01"` / `"1"` runs of
the `file01`/`file1` vector under the sample digit data. -/
theorem claim_C5_strverscmp_vectors_witness :
    strverscmpGo pyDigitsSample ['0', '1'] ['1'] = Except.ok (-1) :=
  claim_C5_strverscmp_vectors.2.2.2.2.2 pyDigitsSample '0' '1' ['1'] []
    (by decide) (by decide) (by decide) (by decide)

/-- C9 counterexample: the Unicode digit data falsifies the claim in both
directions.  On the distinct strings `"٢"` (U+0662, the Arabic-Indic digit
two) and `"2"` both runs convert to the value 2, so `strverscmp` returns
`0`; and on the two equal strings `"²"` (U+00B2, a digit without a decimal
value) `int` raises `ValueError` instead of any `0` being returned. -/
theorem claim_C9_counterexample :
    strverscmp pyDigitsSample "٢" "2" = Except.ok 0 ∧
    ("٢" : String) ≠ "2" ∧
    strverscmp pyDigitsSample "²" "²" = Except.error PyErr.valueError := by
  refine ⟨?_, by decide, ?_⟩
  · have h : strverscmp pyDigitsSample "٢" "2" =
        strverscmpGo pyDigitsSample ['٢'] ['2'] := rfl
    rw [h]
    simp +decide [strverscmpGo, pyDigitsSample, pyInt, isFrac,
      List.takeWhile, List.dropWhile]
  · have h : strverscmp pyDigitsSample "²" "²" =
        strverscmpGo pyDigitsSample ['²'] ['²'] := rfl
    rw [h]
    simp +decide [strverscmpGo, pyDigitsSample, pyInt, isFrac,
      List.takeWhile, List.dropWhile]

/-- C9 (amended): restricted to strings in which every character's digit
classification agrees with the ASCII digit test (no character is a Unicode
digit beyond `'0'`-`'9'`), and for digit data faithful on ASCII,
`strverscmp` never raises, returns `0` exactly on equal strings, and on
distinct strings the two argument orders return values of strictly
opposite signs. -/
theorem claim_C9_strverscmp_eq_antisym (U : PyDigits) (hU : asciiFaithful U)
    (a b : String)
    (ha : ∀ c ∈ a.toList, U.isdigit c = c.isDigit)
    (hb : ∀ c ∈ b.toList, U.isdigit c = c.isDigit) :
    (strverscmp U a b = Except.ok 0 ↔ a = b) ∧
    (a ≠ b → ∃ j k : Int, strverscmp U a b = Except.ok j ∧
      strverscmp U b a = Except.ok k ∧
      ((j < 0 ∧ 0 < k) ∨ (0 < j ∧ k < 0))) := by
  have hab : strverscmp U a b = Except.ok (strverscmpAscii a.toList b.toList) :=
    strverscmpGo_ascii_agree U hU a.toList.length a.toList b.toList le_rfl ha hb
  have hba : strverscmp U b a = Except.ok (strverscmpAscii b.toList a.toList) :=
    strverscmpGo_ascii_agree U hU b.toList.length b.toList a.toList le_rfl hb ha
  have hcore := strverscmp_core a.toList.length a.toList b.toList le_rfl
  have heq : strverscmpAscii a.toList b.toList = 0 ↔ a = b := by
    rw [hcore.2]
    constructor
    · intro h
      exact String.ext h
    · intro h
      rw [h]
  constructor
  · rw [hab]
    constructor
    · intro h
      exact heq.mp (by injection h)
    · intro h
      rw [heq.mpr h]
  · intro hne
    refine ⟨strverscmpAscii a.toList b.toList, strverscmpAscii b.toList a.toList,
      hab, hba, ?_⟩
    have hanti : strverscmpAscii b.toList a.toList
        = - strverscmpAscii a.toList b.toList := hcore.1
    have h0 : strverscmpAscii a.toList b.toList ≠ 0 := fun h => hne (heq.mp h)
    rcases lt_trichotomy (strverscmpAscii a.toList b.toList) 0 with h | h | h
    · exact Or.inl ⟨h, by rw [hanti]; omega⟩
    · exact absurd h h0
    · exact Or.inr ⟨h, by rw [hanti]; omega⟩

/-- Witness for the amended C9 at the distinct ASCII strings `"a"` and
`"ab"`, under the sample digit data. -/
theorem claim_C9_strverscmp_eq_antisym_witness :
    ∃ j k : Int, strverscmp pyDigitsSample "a" "ab" = Except.ok j ∧
      strverscmp pyDigitsSample "ab" "a" = Except.ok k ∧
      ((j < 0 ∧ 0 < k) ∨ (0 < j ∧ k < 0)) :=
  (claim_C9_strverscmp_eq_antisym pyDigitsSample pyDigitsSample_asciiFaithful
    "a" "ab" (by decide) (by decide)).2 (by decide)

/-- C7: a node whose base name starts with `.` and is not `.`/`..` is
invisible whenever show-hidden is off, no matter what patterns or matcher
behaviour are configured (the hidden rule fires first); and for the
pseudo-names `.` and `..` the hidden rule never fires — `filter_item` gives
the same verdict as with show-hidden forced on. -/
theorem claim_C7_hidden_rule (env : Env) (ns : Opts) (item : Node) :
    (startswith (nodeName item) "." = true → nodeName item ≠ "." → nodeName item ≠ ".." →
      ns.a = false → filter_item env item ns = false) ∧
    ((nodeName item = "." ∨ nodeName item = "..") →
      filter_item env item ns = filter_item env item { ns with a := true }) := by
  constructor
  · intro h1 h2 h3 ha
    simp only [filter_item]
    rw [if_pos ⟨ha, h2, h3, h1⟩]
  · intro hp
    simp only [filter_item]
    have hno : ¬(ns.a = false ∧ nodeName item ≠ "." ∧ nodeName item ≠ ".." ∧
        startswith (nodeName item) "." = true) := by
      rcases hp with h | h <;> simp [h]
    have hno2 : ¬({ ns with a := true }.a = false ∧ nodeName item ≠ "." ∧
        nodeName item ≠ ".." ∧ startswith (nodeName item) "." = true) := by
      simp
    rw [if_neg hno, if_neg hno2]

/-- Witness for C7: the hidden file `.h` is filtered out under the baseline
options, and the pseudo-name `..` gets the same verdict with and without
show-hidden. -/
theorem claim_C7_hidden_rule_witness :
    filter_item envA (Node.file [".h"] none) nsBase = false ∧
    filter_item envA (Node.file [".."] none) nsBase =
      filter_item envA (Node.file [".."] none) { nsBase with a := true } :=
  ⟨(claim_C7_hidden_rule envA nsBase (Node.file [".h"] none)).1 (by decide) (by decide)
      (by decide) rfl,
   (claim_C7_hidden_rule envA nsBase (Node.file [".."] none)).2 (Or.inr (by decide))⟩

theorem insertLe_all_le (le : α → α → Bool) (a : α) (l : List α)
    (h : ∀ x ∈ l, le a x = true) : insertLe le a l = a :: l := by
  cases l with
  | nil => rfl
  | cons b l => simp [insertLe, h b (by simp)]

theorem insertLe_append_not_le (le : α → α → Bool) (a : α) (xs ys : List α)
    (h : ∀ x ∈ xs, le a x = false) :
    insertLe le a (xs ++ ys) = xs ++ insertLe le a ys := by
  induction xs with
  | nil => simp
  | cons x xs ih =>
    simp only [List.cons_append, insertLe, h x (by simp)]
    simp only [Bool.false_eq_true, if_false, List.append_eq]
    rw [ih (fun y hy => h y (by simp [hy]))]

theorem dirsfirst_key_cases (x : Node) :
    dirsfirst_key x = 0 ∨ dirsfirst_key x = 1 ∨ dirsfirst_key x = 2 := by
  simp only [dirsfirst_key]
  split
  · exact Or.inl rfl
  · split
    · exact Or.inr (Or.inl rfl)
    · exact Or.inr (Or.inr rfl)

/-- The dirs-first pass of `sort_tree` is a stable three-way partition by
`dirsfirst_key`: directories (key 0), then files (key 1), then everything
else (key 2), each group in its pre-pass relative order. -/
theorem sortedBy_dirsfirst (l : List Node) :
    sortedBy (fun x y => dirsfirst_key x ≤ dirsfirst_key y) l =
      l.filter (fun x => dirsfirst_key x == 0) ++
      l.filter (fun x => dirsfirst_key x == 1) ++
      l.filter (fun x => dirsfirst_key x == 2) := by
  induction l with
  | nil => simp [sortedBy]
  | cons a l ih =>
    simp only [sortedBy, ih]
    have mem0 : ∀ x ∈ l.filter (fun x => dirsfirst_key x == 0), dirsfirst_key x = 0 := by
      intro x hx
      simpa using (List.mem_filter.mp hx).2
    have mem1 : ∀ x ∈ l.filter (fun x => dirsfirst_key x == 1), dirsfirst_key x = 1 := by
      intro x hx
      simpa using (List.mem_filter.mp hx).2
    have mem2 : ∀ x ∈ l.filter (fun x => dirsfirst_key x == 2), dirsfirst_key x = 2 := by
      intro x hx
      simpa using (List.mem_filter.mp hx).2
    rcases dirsfirst_key_cases a with hk | hk | hk
    · rw [insertLe_all_le _ _ _ (by
        intro x hx
        simp only [hk]
        simp)]
      simp [List.filter_cons, hk]
    · rw [List.append_assoc, insertLe_append_not_le _ _ _ _ (by
        intro x hx
        simp [hk, mem0 x hx]),
        insertLe_all_le _ _ _ (by
          intro x hx
          rcases List.mem_append.mp hx with h | h
          · simp [hk, mem1 x h]
          · simp only [hk]
            simp [mem2 x h])]
      simp [List.filter_cons, hk]
    · rw [List.append_assoc, insertLe_append_not_le _ _ _ _ (by
        intro x hx
        simp [hk, mem0 x hx])]
      rw [insertLe_append_not_le _ _ _ _ (by
        intro x hx
        simp [hk, mem1 x hx])]
      rw [insertLe_all_le _ _ _ (by
        intro x hx
        simp [hk, mem2 x hx])]
      simp [List.filter_cons, hk]

theorem dirsfirst_key_zero_iff (x : Node) :
    (dirsfirst_key x == 0) = (nodeType x == "directory") := by
  simp only [dirsfirst_key]
  split
  · rename_i h
    simp [h]
  · rename_i h
    split <;> simp [h]

/-- C6 (amended): with a strategy other than unsorted and dirs-first set,
`sort_tree`'s result is the stable three-way partition — directories, then
files, then all remaining kinds — of the order the same options produce
with dirs-first off; in particular all directories precede all
non-directories, but within the non-directory group `link` nodes are moved
after `file` nodes rather than keeping the pre-partition order. -/
theorem claim_C6_dirsfirst_amended (env : Env) (ns : Opts) (l r : List Node)
    (hU : ns.U = false) (hdf : ns.dirsfirst = true)
    (h : sort_tree env ns l = Except.ok r) :
    ∃ prev, sort_tree env { ns with dirsfirst := false } l = Except.ok prev ∧
      r = prev.filter (fun x => dirsfirst_key x == 0) ++
          prev.filter (fun x => dirsfirst_key x == 1) ++
          prev.filter (fun x => dirsfirst_key x == 2) ∧
      prev.filter (fun x => dirsfirst_key x == 0) =
        prev.filter (fun x => nodeType x == "directory") := by
  simp only [sort_tree] at h ⊢
  by_cases hsv : ns.sort ≠ "" ∧ ns.sort ∉ possible_values
  · rw [if_pos hsv] at h
    exact absurd h (by simp)
  · rw [if_neg hsv] at h
    rw [if_neg hsv]
    simp only [hU, Bool.false_eq_true, if_false] at h ⊢
    cases hm : strategy_sort env ns l with
    | error e =>
      rw [hm] at h
      simp at h
    | ok s =>
      rw [hm] at h
      have hm2 : strategy_sort env { ns with U := false, dirsfirst := false } l
          = Except.ok s := hm
      rw [hm2]
      simp only [hdf, hU] at h
      refine ⟨if ns.r = true then s.reverse else s, by simp, ?_, ?_⟩
      · have hr : r = sortedBy (fun x y => dirsfirst_key x ≤ dirsfirst_key y)
            (if ns.r = true then s.reverse else s) := by
          simp at h
          exact h.symm
        rw [hr, sortedBy_dirsfirst]
      · exact List.filter_congr (fun x _ => dirsfirst_key_zero_iff x)

/-- C6 counterexample: under the default name strategy with dirs-first set,
a sibling list holding an error-link before a file comes out with the file
first — the code's `dirsfirst_key` gives files order 1 and links order 2 —
so the relative order of the two non-directories is not preserved, refuting
the claimed two-way stable partition.  With dirs-first off the same call
keeps the pre-partition order `[link, file]`. -/
theorem claim_C6_counterexample :
    sort_tree envA { nsBase with dirsfirst := true }
        [Node.link ["a"] [], Node.file ["b"] none]
      = Except.ok [Node.file ["b"] none, Node.link ["a"] []] ∧
    sort_tree envA nsBase [Node.link ["a"] [], Node.file ["b"] none]
      = Except.ok [Node.link ["a"] [], Node.file ["b"] none] ∧
    Node.file ["b"] none ≠ Node.link ["a"] [] := by
  refine ⟨by rfl, by rfl, by simp⟩

/-- Witness for the amended C6 at the counterexample input. -/
theorem claim_C6_dirsfirst_amended_witness :
    ∃ prev,
      sort_tree envA { { nsBase with dirsfirst := true } with dirsfirst := false }
          [Node.link ["a"] [], Node.file ["b"] none] = Except.ok prev ∧
      [Node.file ["b"] none, Node.link ["a"] []] =
          prev.filter (fun x => dirsfirst_key x == 0) ++
          prev.filter (fun x => dirsfirst_key x == 1) ++
          prev.filter (fun x => dirsfirst_key x == 2) ∧
      prev.filter (fun x => dirsfirst_key x == 0) =
        prev.filter (fun x => nodeType x == "directory") :=
  claim_C6_dirsfirst_amended envA { nsBase with dirsfirst := true }
    [Node.link ["a"] [], Node.file ["b"] none]
    [Node.file ["b"] none, Node.link ["a"] []] rfl rfl (by rfl)

/-- C8 (amended): the candidate child list `tree_dir` builds and hands to
the Comparator comes from iterating `sorted(path.iterdir())` — the raw
listing sorted lexicographically by path — not the raw filesystem-listing
order; and with the unsorted option set (and a recognised sort mode) the
Comparator returns its input exactly, applying neither reverse nor
dirs-first. -/
theorem claim_C8_unsorted_amended (env : Env) (ns : Opts) (name : String) (ch : List FS)
    (path : List String) (level : Nat) (st : Stat)
    (hfil : filter_item env (dir_dict path) ns = true)
    (hstat : env.stat path = some st)
    (hdepth : depth_guard ns.L level = false)
    (hlist : env.listOk path = true)
    (hlimit : over_filelimit ns.filelimit ch.length = false) :
    tree_dir env ns (FS.dir name ch) path level =
      (match tree_sub env ns (sortedBy iterdirLe ch) path level with
       | Except.error e => Except.error e
       | Except.ok contents =>
         match sort_tree env ns contents with
         | Except.error e => Except.error e
         | Except.ok sorted => Except.ok [Node.dir path (some (attrsOf ns st)) sorted]) ∧
    (ns.U = true → ns.sort = "" ∨ ns.sort ∈ possible_values →
      ∀ l2, sort_tree env ns l2 = Except.ok l2) := by
  constructor
  · rw [tree_dir]
    have hpf : path_is_file env (FS.dir name ch) path = false := rfl
    rw [hpf]
    simp only [Bool.false_eq_true, if_false, hfil, hdepth]
    have hfs : fill_stat env ns (dir_dict path) = Node.dir path (some (attrsOf ns st)) [] := by
      simp [fill_stat, dir_dict, nodeType, nodePath, hstat, setAttrs]
    rw [hfs]
    have hld : listdir env (FS.dir name ch) path = some ch := by
      simp [listdir, hlist]
    rw [hld]
    have hol : over_filelimit ns.filelimit (sortedBy iterdirLe ch).length = false := by
      rw [length_sortedBy]
      exact hlimit
    simp only [hol, Bool.false_eq_true, if_false]
    rfl
  · intro hU hvalid l2
    simp only [sort_tree]
    rw [if_neg (by
      intro hcon
      rcases hvalid with h | h
      · exact hcon.1 h
      · exact hcon.2 h)]
    simp [hU]

/-- C8 counterexample: a directory listed as `[b, a]` (raw filesystem
order) is walked with the unsorted option set, yet its contents come out
`[a, b]` — `tree_dir` sorts `iterdir`'s output before recursing, so the
list handed to the Comparator is not the filesystem-listing order. -/
theorem claim_C8_counterexample :
    tree_dir envA { nsBase with U := true } (FS.dir "d" [FS.file "b", FS.file "a"]) ["d"] 0
      = Except.ok [Node.dir ["d"] (some (attrsOf { nsBase with U := true } stA))
          [Node.file ["d", "a"] (some (attrsOf { nsBase with U := true } stA)),
           Node.file ["d", "b"] (some (attrsOf { nsBase with U := true } stA))]] ∧
    [Node.file ["d", "a"] (some (attrsOf { nsBase with U := true } stA)),
     Node.file ["d", "b"] (some (attrsOf { nsBase with U := true } stA))] ≠
    [Node.file ["d", "b"] (some (attrsOf { nsBase with U := true } stA)),
     Node.file ["d", "a"] (some (attrsOf { nsBase with U := true } stA))] := by
  constructor
  · simp +decide [tree_dir, tree_sub, path_is_file, filter_item, fill_stat,
      nodeType, nodePath, nodeName, pathName, file_dict, dir_dict, setAttrs, setContents,
      depth_guard, listdir, sortedBy, insertLe, iterdirLe, fsName, strLe, charsLe,
      over_filelimit, sort_tree, strategy_sort, possible_values, name_key, startswith,
      charsPrefix, lowerStr, envA, nsBase, stA]
  · simp [pathName]

/-- Witness for the amended C8 at a two-entry directory with the unsorted
option set. -/
theorem claim_C8_unsorted_amended_witness :
    tree_dir envA { nsBase with U := true } (FS.dir "d" [FS.file "b", FS.file "a"]) ["d"] 0
      = (match tree_sub envA { nsBase with U := true }
            (sortedBy iterdirLe [FS.file "b", FS.file "a"]) ["d"] 0 with
         | Except.error e => Except.error e
         | Except.ok contents =>
           match sort_tree envA { nsBase with U := true } contents with
           | Except.error e => Except.error e
           | Except.ok sorted =>
             Except.ok [Node.dir ["d"] (some (attrsOf { nsBase with U := true } stA)) sorted]) ∧
    ({ nsBase with U := true } : Opts).U = true ∧
    sort_tree envA { nsBase with U := true }
        [Node.file ["d", "b"] none, Node.file ["d", "a"] none] =
      Except.ok [Node.file ["d", "b"] none, Node.file ["d", "a"] none] :=
  ⟨(claim_C8_unsorted_amended envA { nsBase with U := true } "d" [FS.file "b", FS.file "a"]
      ["d"] 0 stA rfl rfl rfl rfl rfl).1,
   rfl,
   (claim_C8_unsorted_amended envA { nsBase with U := true } "d" [FS.file "b", FS.file "a"]
      ["d"] 0 stA rfl rfl rfl rfl rfl).2 rfl (Or.inl rfl) _⟩

/-- C2 (amended): a visible, stat-able directory within the depth limit
whose (successful) listing exceeds a configured file-limit gets exactly one
child: a bare `ErrorContent` payload — not an error-link node — wrapping
`TreeFileLimitError` with the actual entry count, and no entry is
descended into. -/
theorem claim_C2_filelimit_amended (env : Env) (ns : Opts) (name : String) (ch : List FS)
    (path : List String) (level : Nat) (st : Stat) (lim : Nat)
    (hfil : filter_item env (dir_dict path) ns = true)
    (hstat : env.stat path = some st)
    (hdepth : depth_guard ns.L level = false)
    (hlist : env.listOk path = true)
    (hlim : ns.filelimit = some lim) (hcount : lim < ch.length) :
    tree_dir env ns (FS.dir name ch) path level =
      Except.ok [Node.dir path (some (attrsOf ns st))
        [Node.errc (TError.fileLimit ch.length)]] ∧
    nodeType (Node.errc (TError.fileLimit ch.length)) ≠ "link" := by
  constructor
  · rw [tree_dir]
    have hpf : path_is_file env (FS.dir name ch) path = false := rfl
    rw [hpf]
    simp only [Bool.false_eq_true, if_false, hfil, hdepth]
    have hfs : fill_stat env ns (dir_dict path) = Node.dir path (some (attrsOf ns st)) [] := by
      simp [fill_stat, dir_dict, nodeType, nodePath, hstat, setAttrs]
    rw [hfs]
    have hld : listdir env (FS.dir name ch) path = some ch := by
      simp [listdir, hlist]
    rw [hld]
    have hol : over_filelimit ns.filelimit ch.length = true := by
      rw [hlim]
      simp [over_filelimit, hcount]
    simp only [length_sortedBy, hol, if_true]
    rfl
  · simp [nodeType]

/-- C2 counterexample: with file-limit 1 and two entries, the returned
directory's single child is a bare error payload carrying
`TreeFileLimitError 2`; it is not a node of the error-link kind, so the
claimed error-link wrapper does not exist. -/
theorem claim_C2_counterexample :
    tree_dir envA { nsBase with filelimit := some 1 }
        (FS.dir "d" [FS.file "a", FS.file "b"]) ["d"] 0
      = Except.ok [Node.dir ["d"] (some (attrsOf { nsBase with filelimit := some 1 } stA))
          [Node.errc (TError.fileLimit 2)]] ∧
    nodeType (Node.errc (TError.fileLimit 2)) ≠ "link" := by
  constructor
  · simp +decide [tree_dir, tree_sub, path_is_file, filter_item, fill_stat,
      nodeType, nodePath, nodeName, pathName, file_dict, dir_dict, setAttrs, setContents,
      depth_guard, listdir, sortedBy, insertLe, iterdirLe, fsName, strLe, charsLe,
      over_filelimit, sort_tree, strategy_sort, possible_values, name_key, startswith,
      charsPrefix, lowerStr, envA, nsBase, stA]
  · simp [nodeType]

/-- Witness for the amended C2 at the counterexample input. -/
theorem claim_C2_filelimit_amended_witness :
    tree_dir envA { nsBase with filelimit := some 1 }
        (FS.dir "d" [FS.file "a", FS.file "b"]) ["d"] 0
      = Except.ok [Node.dir ["d"] (some (attrsOf { nsBase with filelimit := some 1 } stA))
          [Node.errc (TError.fileLimit 2)]] ∧
    nodeType (Node.errc (TError.fileLimit 2)) ≠ "link" :=
  claim_C2_filelimit_amended envA { nsBase with filelimit := some 1 } "d"
    [FS.file "a", FS.file "b"] ["d"] 0 stA 1 rfl rfl rfl rfl rfl (by decide)

/-- C10 (amended): for a path whose `stat` fails (and whose listing also
fails, the realistic companion condition, automatic for file entries),
`walk` never returns a file or directory node: the result is a single node
of the `link` kind carrying the path.  At the depth boundary its contents
are exactly one permission payload; otherwise the listing-failure handler
overwrites them with a nested error-link wrapping one permission payload.
Either way the Aggregator counts the node as `(0, 0)` without descending,
so the path and everything beneath it are excluded from report counts. -/
theorem claim_C10_stat_fail_amended (env : Env) (ns : Opts) (fs : FS)
    (path : List String) (level : Nat)
    (hstat : env.stat path = none)
    (hfil : filter_item env (dir_dict path) ns = true)
    (hlist : listdir env fs path = none) :
    tree_dir env ns fs path level =
      Except.ok [Node.link path
        (if depth_guard ns.L level then [Node.errc TError.perm]
         else [Node.link path [Node.errc TError.perm]])] ∧
    count_nodes (Node.link path
        (if depth_guard ns.L level then [Node.errc TError.perm]
         else [Node.link path [Node.errc TError.perm]])) = (0, 0) ∧
    nodeType (Node.link path
        (if depth_guard ns.L level then [Node.errc TError.perm]
         else [Node.link path [Node.errc TError.perm]])) ≠ "file" ∧
    nodeType (Node.link path
        (if depth_guard ns.L level then [Node.errc TError.perm]
         else [Node.link path [Node.errc TError.perm]])) ≠ "directory" := by
  refine ⟨?_, by simp [count_nodes], by simp [nodeType], by simp [nodeType]⟩
  rw [tree_dir]
  have hpf : path_is_file env fs path = false := by
    cases fs with
    | file n => simp [path_is_file, hstat]
    | dir n ch => rfl
  rw [hpf]
  simp only [Bool.false_eq_true, if_false, hfil]
  have hfs : fill_stat env ns (dir_dict path) = Node.link path [Node.errc TError.perm] := by
    simp [fill_stat, dir_dict, nodeType, nodePath, hstat, errs_with]
  rw [hfs, hlist]
  cases hdg : depth_guard ns.L level with
  | true => simp [setContents, errs_with]
  | false => simp [setContents, errs_with]

/-- C10 counterexample: a directory whose `stat` and listing both fail
yields a link node whose contents hold a nested error-link node — not
"exactly one permission-error payload" as claimed (a link node is not an
`ErrorContent` payload). -/
theorem claim_C10_counterexample :
    tree_dir envN nsBase (FS.dir "d" []) ["d"] 0
      = Except.ok [Node.link ["d"] [Node.link ["d"] [Node.errc TError.perm]]] ∧
    Node.link ["d"] [Node.errc TError.perm] ≠ Node.errc TError.perm := by
  constructor
  · simp +decide [tree_dir, tree_sub, path_is_file, filter_item, fill_stat,
      nodeType, nodePath, nodeName, pathName, file_dict, dir_dict, errs_with, setAttrs,
      setContents, depth_guard, listdir, sortedBy, insertLe, iterdirLe, fsName, strLe,
      charsLe, over_filelimit, sort_tree, strategy_sort, possible_values, name_key,
      startswith, charsPrefix, lowerStr, envN, nsBase]
  · simp

/-- Witness for the amended C10 at the counterexample input. -/
theorem claim_C10_stat_fail_amended_witness :
    tree_dir envN nsBase (FS.dir "d" []) ["d"] 0
      = Except.ok [Node.link ["d"]
          (if depth_guard nsBase.L 0 then [Node.errc TError.perm]
           else [Node.link ["d"] [Node.errc TError.perm]])] ∧
    count_nodes (Node.link ["d"]
        (if depth_guard nsBase.L 0 then [Node.errc TError.perm]
         else [Node.link ["d"] [Node.errc TError.perm]])) = (0, 0) ∧
    nodeType (Node.link ["d"]
        (if depth_guard nsBase.L 0 then [Node.errc TError.perm]
         else [Node.link ["d"] [Node.errc TError.perm]])) ≠ "file" ∧
    nodeType (Node.link ["d"]
        (if depth_guard nsBase.L 0 then [Node.errc TError.perm]
         else [Node.link ["d"] [Node.errc TError.perm]])) ≠ "directory" :=
  claim_C10_stat_fail_amended envN nsBase (FS.dir "d" []) ["d"] 0 rfl rfl rfl

theorem sort_tree_invalid (env : Env) (ns : Opts)
    (hbad : ns.sort ≠ "" ∧ ns.sort ∉ possible_values) (l : List Node) :
    sort_tree env ns l = Except.error Exc.sortType := by
  simp only [sort_tree]
  rw [if_pos hbad]

mutual

/-- With an unrecognised sort mode, the only exception `tree_dir` can
propagate is the sort-validation error: every error exit goes through
`sort_tree`, whose validity check fires before any stat-based key could
raise. -/
theorem tree_dir_err_sortType (env : Env) (ns : Opts)
    (hbad : ns.sort ≠ "" ∧ ns.sort ∉ possible_values) (fs : FS) (path : List String)
    (level : Nat) (e : Exc) (h : tree_dir env ns fs path level = Except.error e) :
    e = Exc.sortType := by
  rw [tree_dir] at h
  split at h
  · dsimp only at h
    split at h <;> simp at h
  · split at h
    · dsimp only at h
      split at h <;> simp at h
    · split at h
      · dsimp only at h
        split at h <;> simp at h
      · rename_i ch hls
        dsimp only at h
        split at h
        · simp at h
        · split at h
          · simp at h
          · split at h
            · rename_i e2 heq
              have h2 : e2 = e := by
                simpa using h
              rw [← h2]
              exact tree_sub_err_sortType env ns hbad (sortedBy iterdirLe ch) path level e2 heq
            · rename_i contents heq
              rw [sort_tree_invalid env ns hbad contents] at h
              simpa using h.symm
termination_by sizeOf fs
decreasing_by
  rw [sizeOf_sortedBy]
  apply listdir_sizeOf env fs path
  assumption

/-- Companion to `tree_dir_err_sortType` for the child loop. -/
theorem tree_sub_err_sortType (env : Env) (ns : Opts)
    (hbad : ns.sort ≠ "" ∧ ns.sort ∉ possible_values) (l : List FS) (path : List String)
    (level : Nat) (e : Exc) (h : tree_sub env ns l path level = Except.error e) :
    e = Exc.sortType := by
  cases hl2 : l with
  | nil =>
    rw [hl2, tree_sub] at h
    simp at h
  | cons sub rest =>
    rw [hl2, tree_sub] at h
    split at h
    · rename_i e2 heq
      have h2 : e2 = e := by
        simpa using h
      rw [← h2]
      exact tree_dir_err_sortType env ns hbad sub (path ++ [fsName sub]) (level + 1) e2 heq
    · split at h
      · rename_i e2 heq
        have h2 : e2 = e := by
          simpa using h
        rw [← h2]
        exact tree_sub_err_sortType env ns hbad rest path level e2 heq
      · simp at h
termination_by sizeOf l
decreasing_by
  all_goals (rw [hl2]; simp; try omega)

end

/-- C3 counterexample: with the unrecognised sort mode `"bogus"`, walking a
single file root completes without any error and produces full tree output
(the file node plus the report): no validation failure aborts the
operation, because the check lives inside `sort_tree`, which a file-only
walk never reaches. -/
theorem claim_C3_counterexample :
    ("bogus" ∈ possible_values) = False ∧
    tree envA { nsBase with sort := "bogus" } [FS.file "f"]
      = Except.ok [Node.file ["f"] (some (attrsOf { nsBase with sort := "bogus" } stA)),
          Node.report 0 1] := by
  constructor
  · simp [possible_values]
  · simp +decide [tree, tree_roots, tree_dir, tree_sub, path_is_file, filter_item,
      fill_stat, nodeType, nodePath, nodeName, pathName, file_dict, dir_dict, setAttrs,
      setContents, depth_guard, listdir, sortedBy, insertLe, iterdirLe, fsName, strLe,
      charsLe, over_filelimit, sort_tree, strategy_sort, possible_values, name_key,
      startswith, charsPrefix, lowerStr, envA, nsBase, stA, totals, count_nodes]

/-- C3 (amended): an unrecognised sort-mode value makes every `sort_tree`
call raise the validation error, and the error propagates uncaught out of
`tree_dir` for any directory that reaches its sorting step — but the check
runs during traversal, after that directory has been listed and its
children visited, not before any traversal occurs. -/
theorem claim_C3_invalid_sort_amended (env : Env) (ns : Opts)
    (hbad : ns.sort ≠ "" ∧ ns.sort ∉ possible_values) :
    (∀ l, sort_tree env ns l = Except.error Exc.sortType) ∧
    (∀ (name : String) (ch : List FS) (path : List String) (level : Nat) (st : Stat),
      filter_item env (dir_dict path) ns = true →
      env.stat path = some st →
      depth_guard ns.L level = false →
      env.listOk path = true →
      over_filelimit ns.filelimit ch.length = false →
      tree_dir env ns (FS.dir name ch) path level = Except.error Exc.sortType) := by
  refine ⟨sort_tree_invalid env ns hbad, ?_⟩
  intro name ch path level st hfil hstat hdepth hlist hlimit
  rw [tree_dir]
  have hpf : path_is_file env (FS.dir name ch) path = false := rfl
  rw [hpf]
  simp only [Bool.false_eq_true, if_false, hfil, hdepth]
  have hfs : fill_stat env ns (dir_dict path) = Node.dir path (some (attrsOf ns st)) [] := by
    simp [fill_stat, dir_dict, nodeType, nodePath, hstat, setAttrs]
  rw [hfs]
  have hld : listdir env (FS.dir name ch) path = some ch := by
    simp [listdir, hlist]
  rw [hld]
  have hol : over_filelimit ns.filelimit (sortedBy iterdirLe ch).length = false := by
    rw [length_sortedBy]
    exact hlimit
  simp only [hol, Bool.false_eq_true, if_false]
  cases hm : tree_sub env ns (sortedBy iterdirLe ch) path level with
  | error e =>
    rw [tree_sub_err_sortType env ns hbad (sortedBy iterdirLe ch) path level e hm]
    simp
  | ok contents =>
    simp [sort_tree_invalid env ns hbad]

/-- Witness for the amended C3: with sort mode `"bogus"`, `sort_tree`
raises on an empty list and `tree_dir` raises on a listable directory. -/
theorem claim_C3_invalid_sort_amended_witness :
    sort_tree envA { nsBase with sort := "bogus" } [] = Except.error Exc.sortType ∧
    tree_dir envA { nsBase with sort := "bogus" } (FS.dir "d" []) ["d"] 0
      = Except.error Exc.sortType :=
  ⟨(claim_C3_invalid_sort_amended envA { nsBase with sort := "bogus" }
      ⟨by decide, by decide⟩).1 [],
   (claim_C3_invalid_sort_amended envA { nsBase with sort := "bogus" }
      ⟨by decide, by decide⟩).2 "d" [] ["d"] 0 stA rfl rfl rfl rfl rfl⟩

mutual

/-- `count_nodes` computes exactly the spec-side counting. -/
theorem count_nodes_eq_spec (n : Node) : count_nodes n = spec_count n := by
  cases hn : n with
  | file p st => simp [count_nodes, spec_count]
  | dir p st cs =>
    rw [count_nodes, spec_count]
    rw [count_fold_eq_spec cs (1, 0)]
    simp [Nat.add_comm]
  | link p cs => simp [count_nodes, spec_count]
  | errc e => simp [count_nodes, spec_count]
  | report d f => simp [count_nodes, spec_count]
termination_by sizeOf n
decreasing_by
  all_goals ((try rw [hn]); simp; try omega)

/-- The accumulation loop of `count_nodes` adds the spec-side sums to the
running accumulator: bare error payloads are skipped, and `link`/`report`
children pass the `type`-key test but contribute `(0, 0)`. -/
theorem count_fold_eq_spec (l : List Node) : ∀ acc : Nat × Nat,
    count_fold l acc = (acc.1 + (spec_fold l).1, acc.2 + (spec_fold l).2) := by
  intro acc
  cases hl : l with
  | nil =>
    simp [count_fold, spec_fold]
  | cons child rest =>
    rw [count_fold, spec_fold]
    cases hc : child with
    | file p st =>
      simp only [has_type_key, nodeType, if_true]
      rw [count_fold_eq_spec rest, count_nodes_eq_spec]
      simp [hc]
      constructor <;> omega
    | dir p st cs =>
      simp only [has_type_key, nodeType, if_true]
      rw [count_fold_eq_spec rest, count_nodes_eq_spec]
      simp [hc]
      constructor <;> omega
    | link p cs =>
      simp only [has_type_key, nodeType]
      rw [count_fold_eq_spec rest, count_nodes_eq_spec]
      simp [hc, spec_count]
    | errc e =>
      simp only [has_type_key, Bool.false_eq_true, if_false]
      rw [count_fold_eq_spec rest]
      simp [spec_fold, nodeType]
    | report d f =>
      simp only [has_type_key, nodeType]
      rw [count_fold_eq_spec rest, count_nodes_eq_spec]
      simp [hc, spec_count]
termination_by sizeOf l
decreasing_by
  all_goals ((try rw [hl]); (try rw [hc]); simp; try omega)

end

theorem totals_eq_spec (nodes : List Node) : totals nodes = spec_totals nodes := by
  have hfun : count_nodes = spec_count := funext count_nodes_eq_spec
  rw [totals, spec_totals, hfun]

/-- C4: `count_nodes` computes exactly the spec-side aggregation — files
contribute `(0, 1)`, directories `(1, 0)` plus the summed contribution of
their file/directory children only, while `error-link`, `report` and bare
error payloads contribute `(0, 0)` and are not descended — and unless the
no-report option is set, `tree` appends a single report node carrying the
accumulated totals as the final element of the result sequence. -/
theorem claim_C4_aggregation :
    (∀ n : Node, count_nodes n = spec_count n) ∧
    (∀ (env : Env) (ns : Opts) (roots : List FS) (nodes : List Node),
      ns.noreport = false → tree env ns roots = Except.ok nodes →
      ∃ body, tree_roots env ns roots = Except.ok body ∧
        nodes = body ++ [Node.report (spec_totals body).1 (spec_totals body).2]) := by
  refine ⟨count_nodes_eq_spec, ?_⟩
  intro env ns roots nodes hnr h
  rw [tree] at h
  cases hm : tree_roots env ns roots with
  | error e =>
    rw [hm] at h
    simp at h
  | ok body =>
    rw [hm] at h
    simp only [hnr, Bool.false_eq_true, if_false] at h
    refine ⟨body, rfl, ?_⟩
    rw [← totals_eq_spec]
    simpa using h.symm

/-- Witness for C4: the count equivalence at a tree with interspersed
`error-link`, bare-payload and `report` children (one real directory, two
real files), and the report-appending fact at a one-directory walk. -/
theorem claim_C4_aggregation_witness :
    count_nodes (Node.dir ["d"] none
        [Node.file ["d", "x"] none, Node.errc TError.perm, Node.report 5 5,
         Node.link ["z"] [Node.file ["q"] none], Node.file ["d", "y"] none]) =
      spec_count (Node.dir ["d"] none
        [Node.file ["d", "x"] none, Node.errc TError.perm, Node.report 5 5,
         Node.link ["z"] [Node.file ["q"] none], Node.file ["d", "y"] none]) ∧
    count_nodes (Node.dir ["d"] none
        [Node.file ["d", "x"] none, Node.errc TError.perm, Node.report 5 5,
         Node.link ["z"] [Node.file ["q"] none], Node.file ["d", "y"] none]) = (1, 2) ∧
    ∃ body, tree_roots envA nsBase [FS.dir "d" [FS.file "x"]] = Except.ok body ∧
      [Node.dir ["d"] (some (attrsOf nsBase stA))
          [Node.file ["d", "x"] (some (attrsOf nsBase stA))],
        Node.report 1 1] =
        body ++ [Node.report (spec_totals body).1 (spec_totals body).2] := by
  refine ⟨claim_C4_aggregation.1 _, ?_, ?_⟩
  · simp [count_nodes, count_fold, has_type_key]
  · apply claim_C4_aggregation.2 envA nsBase [FS.dir "d" [FS.file "x"]] _ rfl
    simp +decide [tree, tree_roots, tree_dir, tree_sub, path_is_file, filter_item,
      fill_stat, nodeType, nodePath, nodeName, pathName, file_dict, dir_dict, setAttrs,
      setContents, depth_guard, listdir, sortedBy, insertLe, iterdirLe, fsName, strLe,
      charsLe, over_filelimit, sort_tree, strategy_sort, possible_values, name_key,
      startswith, charsPrefix, lowerStr, envA, nsBase, stA, totals, count_nodes,
      count_fold, has_type_key]

/-- C1: at a directory reached at `level >= L` (depth option set, sticky
rescan flag not yet set), the rescan engine assigns the bounded—empty—
contents and, with full-rescan enabled, appends after them the
independently sorted results of a second pass over the same immediate
children run with the sticky `rescanned` flag set (which disables the
depth guard for that sub-walk); with full-rescan disabled the directory
keeps empty contents and nothing is descended. -/
theorem claim_C1_rescan_boundary (env : Env) (ns : Opts) (name : String) (ch : List FS)
    (path : List String) (level lim : Nat) (st : Stat)
    (hL : ns.L = some lim) (hlev : lim ≤ level)
    (hfil : filter_item env (dir_dict path) ns = true)
    (hstat : env.stat path = some st)
    (hlist : env.listOk path = true) :
    (ns.R = true →
      tree_dir_r env ns (FS.dir name ch) path level false =
        (match tree_sub_r env ns (sortedBy iterdirLe ch) path (level + 1) true with
         | Except.error e => Except.error e
         | Except.ok second =>
           match sort_tree env ns second with
           | Except.error e => Except.error e
           | Except.ok sorted =>
             Except.ok [Node.dir path (some (attrsOf ns st)) ([] ++ sorted)])) ∧
    (ns.R = false →
      tree_dir_r env ns (FS.dir name ch) path level false =
        Except.ok [Node.dir path (some (attrsOf ns st)) []]) := by
  have hpf : path_is_file env (FS.dir name ch) path = false := rfl
  have hfs : fill_stat env ns (dir_dict path) = Node.dir path (some (attrsOf ns st)) [] := by
    simp [fill_stat, dir_dict, nodeType, nodePath, hstat, setAttrs]
  have hdg : depth_guard ns.L level = true := by
    rw [hL]
    simp [depth_guard, hlev]
  have hld : listdir env (FS.dir name ch) path = some ch := by
    simp [listdir, hlist]
  constructor
  · intro hR
    rw [tree_dir_r, hpf]
    simp only [Bool.false_eq_true, if_false, hfil, hfs, hdg, hR, and_true, if_true]
    rw [show (if (true = false) then (Except.ok [] : Except Exc (List Node)) else
      (match hls : listdir env (FS.dir name ch) path with
       | none =>
           Except.ok [setContents (Node.dir path (some (attrsOf ns st)) [])
             [errs_with path TError.perm]]
       | some ch2 =>
           match tree_sub_r env ns (sortedBy iterdirLe ch2) path (level + 1) true with
           | Except.error e => Except.error e
           | Except.ok second =>
             match sort_tree env ns second with
             | Except.error e => Except.error e
             | Except.ok sorted =>
               Except.ok [setContents (Node.dir path (some (attrsOf ns st)) [])
                 ([] ++ sorted)])) =
      (match hls : listdir env (FS.dir name ch) path with
       | none =>
           Except.ok [setContents (Node.dir path (some (attrsOf ns st)) [])
             [errs_with path TError.perm]]
       | some ch2 =>
           match tree_sub_r env ns (sortedBy iterdirLe ch2) path (level + 1) true with
           | Except.error e => Except.error e
           | Except.ok second =>
             match sort_tree env ns second with
             | Except.error e => Except.error e
             | Except.ok sorted =>
               Except.ok [setContents (Node.dir path (some (attrsOf ns st)) [])
                 ([] ++ sorted)]) from rfl]
    split
    · rename_i heq
      rw [hld] at heq
      exact absurd heq (by simp)
    · rename_i ch2 heq
      rw [hld] at heq
      injection heq with hch
      subst hch
      rfl
  · intro hR
    rw [tree_dir_r, hpf]
    simp only [Bool.false_eq_true, if_false, hfil, hfs, hdg, hR, and_true, if_true]
    rfl

/-- Witness for C1 at a one-child directory sitting exactly at the depth
boundary `L = 1`, once with full-rescan on and once with it off; the third
conjunct evaluates the rescan run on a two-level subtree, showing the full
unrestricted subtree appended after the empty bounded contents. -/
theorem claim_C1_rescan_boundary_witness :
    tree_dir_r envA { nsBase with L := some 1, R := true }
        (FS.dir "d" [FS.file "x"]) ["d"] 1 false
      = (match tree_sub_r envA { nsBase with L := some 1, R := true }
            (sortedBy iterdirLe [FS.file "x"]) ["d"] 2 true with
         | Except.error e => Except.error e
         | Except.ok second =>
           match sort_tree envA { nsBase with L := some 1, R := true } second with
           | Except.error e => Except.error e
           | Except.ok sorted =>
             Except.ok [Node.dir ["d"]
               (some (attrsOf { nsBase with L := some 1, R := true } stA)) ([] ++ sorted)]) ∧
    tree_dir_r envA { nsBase with L := some 1 } (FS.dir "d" [FS.file "x"]) ["d"] 1 false
      = Except.ok [Node.dir ["d"] (some (attrsOf { nsBase with L := some 1 } stA)) []] ∧
    tree_dir_r envA { nsBase with L := some 1, R := true }
        (FS.dir "d" [FS.dir "s" [FS.file "x"]]) ["d"] 1 false
      = Except.ok [Node.dir ["d"] (some (attrsOf { nsBase with L := some 1, R := true } stA))
          [Node.dir ["d", "s"] (some (attrsOf { nsBase with L := some 1, R := true } stA))
            [Node.file ["d", "s", "x"]
              (some (attrsOf { nsBase with L := some 1, R := true } stA))]]] := by
  refine ⟨(claim_C1_rescan_boundary envA { nsBase with L := some 1, R := true } "d"
      [FS.file "x"] ["d"] 1 1 stA rfl (le_refl 1) rfl rfl rfl).1 rfl,
    (claim_C1_rescan_boundary envA { nsBase with L := some 1 } "d"
      [FS.file "x"] ["d"] 1 1 stA rfl (le_refl 1) rfl rfl rfl).2 rfl, ?_⟩
  simp +decide [tree_dir_r, tree_sub_r, path_is_file, filter_item, fill_stat,
    nodeType, nodePath, nodeName, pathName, file_dict, dir_dict, setAttrs, setContents,
    depth_guard, listdir, sortedBy, insertLe, iterdirLe, fsName, strLe, charsLe,
    over_filelimit, sort_tree, strategy_sort, possible_values, name_key, startswith,
    charsPrefix, lowerStr, envA, nsBase, stA]

end UTree
